import Mathlib

/-!
Verification of `experimentPage.group-row-utils.ts` (mlflow run-grouping utilities).

The TypeScript source is shallowly embedded below.  JavaScript numbers are
modelled exactly: the concrete values occurring in the module's claims are small
integers and halves, for which IEEE double arithmetic is exact, so an exact
rational carrier plus the special values `NaN`, `Infinity` and `-Infinity` is a
faithful model of every computation the claims exercise.
-/

/-- Exact rational numbers in canonical form (`den > 0`, `gcd (|num|) den = 1`
for every value produced by the smart constructors below).  A bespoke type is
used so that all arithmetic reduces inside `decide`. -/
structure MRat where
  num : Int
  den : Nat
deriving DecidableEq

/-- Canonicalizing constructor: divides by the gcd.  A zero denominator never
arises from the operations below; it is mapped to `0` for totality. -/
def MRat.norm (n : Int) (d : Nat) : MRat :=
  if d = 0 then ⟨0, 1⟩
  else
    let g := Nat.gcd n.natAbs d
    ⟨n / (g : Int), d / g⟩

def MRat.ofInt (n : Int) : MRat := ⟨n, 1⟩

def MRat.add (a b : MRat) : MRat :=
  MRat.norm (a.num * (b.den : Int) + b.num * (a.den : Int)) (a.den * b.den)

def MRat.mul (a b : MRat) : MRat :=
  MRat.norm (a.num * b.num) (a.den * b.den)

/-- Division, defined for a nonzero divisor (the zero-divisor case is handled
separately by the JavaScript division model). -/
def MRat.divQ (a b : MRat) : MRat :=
  if 0 ≤ b.num then MRat.norm (a.num * (b.den : Int)) (a.den * b.num.toNat)
  else MRat.norm (-(a.num * (b.den : Int))) (a.den * (-b.num).toNat)

/-- Strict comparison on canonical rationals (denominators are positive). -/
def MRat.blt (a b : MRat) : Bool :=
  a.num * (b.den : Int) < b.num * (a.den : Int)

/-- Floor to an integer (used by the `Math.round` model). -/
def MRat.floorI (a : MRat) : Int := Int.fdiv a.num (a.den : Int)

def MRat.isZero (a : MRat) : Bool := a.num = 0

def MRat.isPos (a : MRat) : Bool := 0 < a.num

/-- The JavaScript `number` type restricted to exactly-representable values:
an exact rational or one of the special values `NaN`, `Infinity`,
`-Infinity`. -/
inductive JNum where
  | num (q : MRat)
  | nan
  | inf
  | negInf
deriving DecidableEq

/-- Shorthand for an integer-valued JavaScript number. -/
def JNum.int (n : Int) : JNum := .num (MRat.ofInt n)

/-- Model of the binary `Math.min`: `NaN` absorbs, `-Infinity` is least. -/
def jsMin2 : JNum → JNum → JNum
  | .nan, _ => .nan
  | _, .nan => .nan
  | .negInf, _ => .negInf
  | _, .negInf => .negInf
  | .inf, b => b
  | a, .inf => a
  | .num a, .num b => if MRat.blt b a then .num b else .num a

/-- Model of the binary `Math.max`: `NaN` absorbs, `Infinity` is greatest. -/
def jsMax2 : JNum → JNum → JNum
  | .nan, _ => .nan
  | _, .nan => .nan
  | .inf, _ => .inf
  | _, .inf => .inf
  | .negInf, b => b
  | a, .negInf => a
  | .num a, .num b => if MRat.blt a b then .num b else .num a

/-- Model of JavaScript `+` on numbers: `NaN` absorbs and opposite infinities
cancel to `NaN`. -/
def jsAdd : JNum → JNum → JNum
  | .nan, _ => .nan
  | _, .nan => .nan
  | .inf, .negInf => .nan
  | .negInf, .inf => .nan
  | .inf, _ => .inf
  | _, .inf => .inf
  | .negInf, _ => .negInf
  | _, .negInf => .negInf
  | .num a, .num b => .num (MRat.add a b)

/-- Model of JavaScript `/` on numbers: `0/0` and `Infinity/Infinity` are
`NaN`, a nonzero finite value divided by zero is a signed infinity. -/
def jsDiv : JNum → JNum → JNum
  | .nan, _ => .nan
  | _, .nan => .nan
  | .inf, .inf => .nan
  | .inf, .negInf => .nan
  | .negInf, .inf => .nan
  | .negInf, .negInf => .nan
  | .inf, .num b => if MRat.blt b (MRat.ofInt 0) then .negInf else .inf
  | .negInf, .num b => if MRat.blt b (MRat.ofInt 0) then .inf else .negInf
  | .num _, .inf => JNum.int 0
  | .num _, .negInf => JNum.int 0
  | .num a, .num b =>
    if MRat.isZero b then
      if MRat.isZero a then .nan
      else if MRat.isPos a then .inf else .negInf
    else .num (MRat.divQ a b)

/-- Model of `Math.round`: round half toward positive infinity; special values
pass through. -/
def jsRound : JNum → JNum
  | .nan => .nan
  | .inf => .inf
  | .negInf => .negInf
  | .num q => JNum.int (MRat.floorI (MRat.add q ⟨1, 2⟩))

/-- JavaScript truthiness of a number: `0` and `NaN` are falsy. -/
def jsTruthy : JNum → Bool
  | .num q => ! MRat.isZero q
  | .nan => false
  | .inf => true
  | .negInf => true

/-- Model of the global `isNaN` applied to a number. -/
def jsIsNaN : JNum → Bool
  | .nan => true
  | _ => false

/-- Model of lodash `compact` on a number array: removes falsy elements. -/
def jsCompact (l : List JNum) : List JNum := l.filter jsTruthy

/-- Model of the spread call `Math.min(...l)`: folds `jsMin2` starting from
`Infinity`, which is `Math.min()`. -/
def jsMathMin (l : List JNum) : JNum := l.foldl jsMin2 .inf

/-- Model of the spread call `Math.max(...l)`: folds `jsMax2` starting from
`-Infinity`, which is `Math.max()`. -/
def jsMathMax (l : List JNum) : JNum := l.foldl jsMax2 .negInf

/-- Model of `values.reduce((acc, value) => acc + Number(value), 0)` for a
list of numbers (`Number` is the identity on numbers). -/
def jsSum (l : List JNum) : JNum := l.foldl jsAdd (JNum.int 0)

/-- Whitespace characters trimmed by the `Number(string)` conversion. -/
def isStrWhite (c : Char) : Bool :=
  c = ' ' || c = '\t' || c = '\n' || c = '\r' || c = '\x0b' || c = '\x0c' ||
  c = ' ' || c = '﻿'

def isDecDigit (c : Char) : Bool := '0' ≤ c && c ≤ '9'

def isHexDigit (c : Char) : Bool :=
  isDecDigit c || ('a' ≤ c && c ≤ 'f') || ('A' ≤ c && c ≤ 'F')

def hexVal (c : Char) : Nat :=
  if isDecDigit c then c.toNat - '0'.toNat
  else if 'a' ≤ c && c ≤ 'f' then c.toNat - 'a'.toNat + 10
  else c.toNat - 'A'.toNat + 10

def digitsVal (base : Nat) (cs : List Char) : Nat :=
  cs.foldl (fun acc c => acc * base + hexVal c) 0

/-- Value of a decimal literal given integer digits, fraction digits and a
signed exponent: `(int.frac) * 10 ^ exp` as an exact rational. -/
def decLitVal (intDs fracDs : List Char) (exp : Int) : MRat :=
  let mant : Nat := digitsVal 10 (intDs ++ fracDs)
  let scale : Int := exp - fracDs.length
  if 0 ≤ scale then MRat.norm ((mant : Int) * ((10 : Nat) ^ scale.toNat : Nat)) 1
  else MRat.norm (mant : Int) ((10 : Nat) ^ (-scale).toNat)

/-- Parses the exponent suffix of a decimal literal; the whole remainder must
be consumed. -/
def parseExpPart : List Char → Option Int
  | [] => some 0
  | c :: rest =>
    if c = 'e' || c = 'E' then
      match rest with
      | '+' :: ds => if ds ≠ [] && ds.all isDecDigit then some (digitsVal 10 ds : Nat) else none
      | '-' :: ds => if ds ≠ [] && ds.all isDecDigit then some (-(digitsVal 10 ds : Nat) : Int) else none
      | ds => if ds ≠ [] && ds.all isDecDigit then some (digitsVal 10 ds : Nat) else none
    else none

/-- Parses an unsigned decimal literal (`digits`, `digits.digits`, `.digits`,
with optional exponent); the whole input must be consumed. -/
def parseDecLit (cs : List Char) : Option MRat :=
  let intDs := cs.takeWhile isDecDigit
  let rest := cs.dropWhile isDecDigit
  match rest with
  | [] => if intDs = [] then none else some (decLitVal intDs [] 0)
  | '.' :: r2 =>
    let fracDs := r2.takeWhile isDecDigit
    let r3 := r2.dropWhile isDecDigit
    if intDs = [] && fracDs = [] then none
    else (parseExpPart r3).map (decLitVal intDs fracDs)
  | _ =>
    if intDs = [] then none
    else (parseExpPart rest).map (decLitVal intDs [])

/-- Parses a signed decimal literal or a signed `Infinity`. -/
def parseSignedDec (cs : List Char) : Option JNum :=
  let core : Bool → List Char → Option JNum := fun neg body =>
    if body = "Infinity".data then some (if neg then .negInf else .inf)
    else (parseDecLit body).map (fun q => .num (if neg then MRat.norm (-q.num) q.den else q))
  match cs with
  | '+' :: r => core false r
  | '-' :: r => core true r
  | r => core false r

/-- Parses a radix-prefixed integer literal (`0x`, `0o`, `0b`). -/
def parseRadix (base : Nat) (isDigitB : Char → Bool) (ds : List Char) : Option JNum :=
  if ds ≠ [] && ds.all isDigitB then some (JNum.int (digitsVal base ds)) else none

/-- Model of the JavaScript `Number(string)` conversion: trims whitespace, maps
the empty remainder to `0`, accepts decimal / `Infinity` / radix-prefixed
literals, and yields `NaN` otherwise. -/
def strToNumber (s : String) : JNum :=
  let cs := (s.data.dropWhile isStrWhite).reverse.dropWhile isStrWhite |>.reverse
  match cs with
  | [] => JNum.int 0
  | '0' :: 'x' :: ds => (parseRadix 16 isHexDigit ds).getD .nan
  | '0' :: 'X' :: ds => (parseRadix 16 isHexDigit ds).getD .nan
  | '0' :: 'o' :: ds => (parseRadix 8 (fun c => '0' ≤ c && c ≤ '7') ds).getD .nan
  | '0' :: 'O' :: ds => (parseRadix 8 (fun c => '0' ≤ c && c ≤ '7') ds).getD .nan
  | '0' :: 'b' :: ds => (parseRadix 2 (fun c => c = '0' || c = '1') ds).getD .nan
  | '0' :: 'B' :: ds => (parseRadix 2 (fun c => c = '0' || c = '1') ds).getD .nan
  | _ => (parseSignedDec cs).getD .nan

/-- The `string | number` union of the source's `AggregableEntity.value`. -/
inductive AggVal where
  | num (n : JNum)
  | str (s : String)
deriving DecidableEq

/-- Model of `Number(value)` applied to a `string | number` value. -/
def toNumber : AggVal → JNum
  | .num n => n
  | .str s => strToNumber s

/-- Association-list model of a JavaScript plain object used as a record:
entries are kept in insertion order and keys are distinct. -/
def recGet {α : Type} (r : List (String × α)) (k : String) : Option α :=
  (r.find? (fun e => e.1 = k)).map (·.2)

/-- Property write when the key is already present: the entry is updated in
place, keeping its position. -/
def recSet {α : Type} (r : List (String × α)) (k : String) (v : α) : List (String × α) :=
  r.map (fun e => if e.1 = k then (e.1, v) else e)

/-- Property write on a record: update in place if present, append otherwise
(JavaScript insertion order for new string keys). -/
def recPut {α : Type} (r : List (String × α)) (k : String) (v : α) : List (String × α) :=
  if (recGet r k).isSome then recSet r k v else r ++ [(k, v)]

/-- Whether a property key is a canonical array index (`"0"`, or digits with no
leading zero, value below `2 ^ 32 - 1`): such keys are enumerated first. -/
def isArrayIndexKey (s : String) : Bool :=
  s.data ≠ [] && s.data.all isDecDigit &&
    (s.data = ['0'] || s.data.head? ≠ some '0') &&
    digitsVal 10 s.data < 4294967295

/-- Numeric value used to order array-index keys. -/
def keyIndexVal (s : String) : Nat := digitsVal 10 s.data

/-- Insertion of an entry into a list sorted by ascending array-index value. -/
def ordInsertE {α : Type} (x : String × α) : List (String × α) → List (String × α)
  | [] => [x]
  | y :: ys => if keyIndexVal x.1 ≤ keyIndexVal y.1 then x :: y :: ys else y :: ordInsertE x ys

def sortByIndexE {α : Type} : List (String × α) → List (String × α)
  | [] => []
  | x :: xs => ordInsertE x (sortByIndexE xs)

/-- Model of JavaScript own-property enumeration order (`Object.keys`,
`Object.values`, `Object.entries`, lodash `keys`/`values`/`entries`): array
index keys first in ascending numeric order, then the remaining string keys in
insertion order. -/
def jsOrderEntries {α : Type} (r : List (String × α)) : List (String × α) :=
  sortByIndexE (r.filter (fun e => isArrayIndexKey e.1)) ++
    r.filter (fun e => ! isArrayIndexKey e.1)

/-- Key-level counterpart of `jsOrderEntries`. -/
def ordInsertK (x : String) : List String → List String
  | [] => [x]
  | y :: ys => if keyIndexVal x ≤ keyIndexVal y then x :: y :: ys else y :: ordInsertK x ys

def sortByIndexK : List String → List String
  | [] => []
  | x :: xs => ordInsertK x (sortByIndexK xs)

/-- Enumeration order of a key list under the JavaScript own-property rule. -/
def jsOrderKeys (ks : List String) : List String :=
  sortByIndexK (ks.filter isArrayIndexKey) ++ ks.filter (fun k => ! isArrayIndexKey k)

/-- The `RunGroupingMode` enum of `experimentPage.row-types.ts` (that file is
outside the provided sources; only its closed constructor set is needed
here). -/
inductive RunGroupingMode where
  | Tag
  | Param
  | Dataset
deriving DecidableEq

/-- Modelled from the spec: the string values of the `RunGroupingMode` enum,
which the spec requires to be lowercase tokens and the source's doc comment
shows as `"tags"` for `Tag` (`experimentPage.row-types.ts` is not under the
provided sources). -/
def RunGroupingMode.str : RunGroupingMode → String
  | .Tag => "tags"
  | .Param => "params"
  | .Dataset => "dataset"

/-- The `RunGroupingAggregateFunction` enum of `experimentPage.row-types.ts`. -/
inductive RunGroupingAggregateFunction where
  | Min
  | Max
  | Average
deriving DecidableEq

/-- Modelled from the spec: the string values of the
`RunGroupingAggregateFunction` enum, lowercase tokens per the spec and
`"min"` per the source's doc comment. -/
def RunGroupingAggregateFunction.str : RunGroupingAggregateFunction → String
  | .Min => "min"
  | .Max => "max"
  | .Average => "average"

/-- Model of `values(RunGroupingMode).includes(mode)` followed by the cast to
the enum: the inverse of `RunGroupingMode.str`. -/
def modeOfString (s : String) : Option RunGroupingMode :=
  if s = "tags" then some .Tag
  else if s = "params" then some .Param
  else if s = "dataset" then some .Dataset
  else none

/-- Model of `values(RunGroupingAggregateFunction).includes(f)` followed by
the cast to the enum. -/
def aggOfString (s : String) : Option RunGroupingAggregateFunction :=
  if s = "min" then some .Min
  else if s = "max" then some .Max
  else if s = "average" then some .Average
  else none

/-- The `GroupByConfig` type of the source. -/
structure GroupByConfig where
  mode : RunGroupingMode
  aggregateFunction : RunGroupingAggregateFunction
  groupByData : String
deriving DecidableEq

/-- Embedding of `createRunsGroupByKey`: serializes a grouping configuration,
`[mode, aggregateFunction, groupByData].join('.')`, or the empty string when
`mode` is absent (`undefined`). -/
def createRunsGroupByKey (mode : Option RunGroupingMode) (groupByData : String)
    (aggregateFunction : RunGroupingAggregateFunction) : String :=
  match mode with
  | some m => m.str ++ "." ++ aggregateFunction.str ++ "." ++ groupByData
  | none => ""

def isLowerAZ (c : Char) : Bool := 'a' ≤ c && c ≤ 'z'

/-- Characters the JavaScript regex metacharacter `.` does not match. -/
def isLineTerm (c : Char) : Bool :=
  c = '\n' || c = '\r' || c = ' ' || c = ' '

/-- Attempt to match the regex `([a-z]+)\.([a-z]+)\.(.+)` at the start of the
input.  Because `'.'` is not in `[a-z]`, the backtracking search of the
JavaScript engine is forced: each `[a-z]+` group must be the maximal lowercase
run, and `(.+)` greedily captures up to the end of the line. -/
def matchGroupKeyAt (s : List Char) : Option (List Char × List Char × List Char) :=
  let g1 := s.takeWhile isLowerAZ
  let r1 := s.dropWhile isLowerAZ
  if g1 = [] then none
  else
    match r1 with
    | '.' :: r2 =>
      let g2 := r2.takeWhile isLowerAZ
      let r3 := r2.dropWhile isLowerAZ
      if g2 = [] then none
      else
        match r3 with
        | '.' :: r4 =>
          let g3 := r4.takeWhile (fun c => ! isLineTerm c)
          if g3 = [] then none else some (g1, g2, g3)
        | _ => none
    | _ => none

/-- Leftmost match of `([a-z]+)\.([a-z]+)\.(.+)` (the unanchored
`String.prototype.match` semantics: try each start position left to right). -/
def findGroupKeyMatch : List Char → Option (List Char × List Char × List Char)
  | [] => none
  | c :: rest =>
    match matchGroupKeyAt (c :: rest) with
    | some m => some m
    | none => findGroupKeyMatch rest

/-- Embedding of `parseRunsGroupByKey`: empty or absent keys give `null`; the
regex captures mode, aggregate function and the remainder, and both enum
membership tests must pass. -/
def parseRunsGroupByKey (groupByKey : String) : Option GroupByConfig :=
  if groupByKey = "" then none
  else
    match findGroupKeyMatch groupByKey.data with
    | none => none
    | some (m, a, g) =>
      match modeOfString (String.mk m), aggOfString (String.mk a) with
      | some mode, some agg => some ⟨mode, agg, String.mk g⟩
      | _, _ => none

/-- The `run_uuid`-carrying `runInfo` of a run (only field the module reads). -/
structure RunInfo where
  run_uuid : String
deriving DecidableEq

/-- Dataset identity `(name, digest)` of a run's dataset reference; the source
reads only the `dataset` field of each `RunDatasetWithTags`. -/
structure DatasetIdentity where
  name : String
  digest : String
deriving DecidableEq

/-- The `AggregableEntity` of the source: `{ key, value: string | number }`. -/
structure AggEntity where
  key : String
  value : AggVal
deriving DecidableEq

/-- The slice of `SingleRunData` the module reads.  `metrics` are key/number
pairs, `params` and `tags` key/string pairs (tags as an object, modelled as an
insertion-ordered record), `datasets` the list of referenced dataset
identities; an absent (`undefined`) list is modelled as `[]`, which the source
normalizes to anyway (`run.metrics || []` etc.). -/
structure SingleRunData where
  runInfo : RunInfo
  metrics : List (String × JNum)
  params : List (String × String)
  tags : List (String × String)
  datasets : List DatasetIdentity
deriving DecidableEq

/-- A run's metric list viewed as `AggregableEntity[]`. -/
def metricsAgg (r : SingleRunData) : List AggEntity :=
  r.metrics.map (fun e => ⟨e.1, .num e.2⟩)

/-- A run's param list viewed as `AggregableEntity[]`. -/
def paramsAgg (r : SingleRunData) : List AggEntity :=
  r.params.map (fun e => ⟨e.1, .str e.2⟩)

/-- Result entries of `aggregateValues`: `{ key, value: number }`. -/
structure AggRes where
  key : String
  value : JNum
deriving DecidableEq

/-- One step of the `Min`/`Max` reducer of `aggregateValues`: a missing key is
initialized with the coerced value, an existing key is combined with the
aggregate math function. -/
def mmStep (f2 : JNum → JNum → JNum) (acc : List (String × JNum)) (m : AggEntity) :
    List (String × JNum) :=
  match recGet acc m.key with
  | none => acc ++ [(m.key, toNumber m.value)]
  | some old => recSet acc m.key (f2 old (toNumber m.value))

/-- The `Min`/`Max` branch of `aggregateValues`: reduce all per-run lists into
a record, enumerate it with `values(...)` and drop `NaN` aggregates. -/
def aggregateMinMax (f2 : JNum → JNum → JNum) (valuesByRun : List (List AggEntity)) :
    List AggRes :=
  let valuesMap := valuesByRun.foldl (fun acc l => l.foldl (mmStep f2) acc) []
  ((jsOrderEntries valuesMap).filter (fun e => ! jsIsNaN e.2)).map (fun e => ⟨e.1, e.2⟩)

/-- One step of the `Average` collector: push the coerced value onto the
per-key list (creating it on first sight). -/
def avStep (acc : List (String × List JNum)) (m : AggEntity) : List (String × List JNum) :=
  match recGet acc m.key with
  | none => acc ++ [(m.key, [toNumber m.value])]
  | some vs => recSet acc m.key (vs ++ [toNumber m.value])

/-- The `Average` branch of `aggregateValues`: collect all values by key, then
map `entries(...)` to sum/length and drop `NaN` aggregates. -/
def aggregateAverage (valuesByRun : List (List AggEntity)) : List AggRes :=
  let valuesMap := valuesByRun.foldl (fun acc l => l.foldl avStep acc) []
  (((jsOrderEntries valuesMap).map
      (fun e => (e.1, jsDiv (jsSum e.2) (JNum.int e.2.length)))).filter
    (fun e => ! jsIsNaN e.2)).map (fun e => ⟨e.1, e.2⟩)

/-- Embedding of `aggregateValues` at the runtime level, where the aggregate
function arrives as a raw string: an unrecognized value reaches the
`throw new Error(...)` statement, modelled as `Except.error` with the thrown
message. -/
def aggregateValuesRT (valuesByRun : List (List AggEntity)) (aggregateFunction : String) :
    Except String (List AggRes) :=
  if aggregateFunction = "min" || aggregateFunction = "max" then
    .ok (aggregateMinMax (if aggregateFunction = "min" then jsMin2 else jsMax2) valuesByRun)
  else if aggregateFunction = "average" then
    .ok (aggregateAverage valuesByRun)
  else
    .error ("Unsupported aggregate function: " ++ aggregateFunction)

/-- Embedding of `aggregateValues` for a well-typed aggregate function (the
three enum members, for which the throw branch is unreachable). -/
def aggregateValues (valuesByRun : List (List AggEntity))
    (aggregateFunction : RunGroupingAggregateFunction) : List AggRes :=
  match aggregateFunction with
  | .Min => aggregateMinMax jsMin2 valuesByRun
  | .Max => aggregateMinMax jsMax2 valuesByRun
  | .Average => aggregateAverage valuesByRun

/-- Modelled from the spec: the parent-run tag name from
`experimentPage.common-utils.ts` (not under the provided sources); a run with
this tag is a child run and not pinnable. -/
def EXPERIMENT_PARENT_ID_TAG : String := "mlflow.parentRunId"

/-- The `RunGroupByValueType` union: a tag/param value string, a dataset
identity, or the `RUN_GROUP_REMAINING_RUNS_SYMBOL` sentinel. -/
inductive GroupValue where
  | str (s : String)
  | dataset (d : DatasetIdentity)
  | remaining
deriving DecidableEq

/-- Embedding of `createGroupId`: joins mode, group-by name and (when the
value is truthy, i.e. a nonempty string) the value with `.` separators. -/
def createGroupId (mode : String) (groupByName : String) (groupByValue : Option String) :
    String :=
  match groupByValue with
  | some v => if v = "" then mode ++ "." ++ groupByName else mode ++ "." ++ groupByName ++ "." ++ v
  | none => mode ++ "." ++ groupByName

/-- The `RowGroupRenderMetadata` group-header record. -/
structure RowGroupRenderMetadata where
  groupId : String
  expanderOpen : Bool
  runUuids : List String
  aggregatedMetricEntities : List AggRes
  aggregatedParamEntities : List AggRes
  value : GroupValue
deriving DecidableEq

/-- The `RowRenderMetadata` run-row record (the fields the module writes). -/
structure RowRenderMetadata where
  index : Nat
  level : Nat
  runInfo : RunInfo
  belongsToGroup : Bool
  isPinnable : Bool
  metrics : List (String × JNum)
  params : List (String × String)
  tags : List (String × String)
  datasets : List DatasetIdentity
  rowUuid : String
deriving DecidableEq

/-- The discriminated union `RowRenderMetadata | RowGroupRenderMetadata`
(distinguished in the source by the `isGroup` flag). -/
inductive RowMeta where
  | group (g : RowGroupRenderMetadata)
  | run (r : RowRenderMetadata)
deriving DecidableEq

/-- Embedding of `createGroupRenderMetadata`: one header record carrying the
aggregates, followed (only when expanded) by one row record per member run. -/
def createGroupRenderMetadata (groupId : String) (expanded : Bool)
    (runsInGroup : List SingleRunData) (aggregateFunction : RunGroupingAggregateFunction)
    (groupValue : GroupValue) (isRemainingRowsGroup : Bool) : List RowMeta :=
  let metricsByRun := runsInGroup.map metricsAgg
  let paramsByRun := runsInGroup.map paramsAgg
  let header : RowGroupRenderMetadata :=
    { groupId := groupId
      expanderOpen := expanded
      runUuids := runsInGroup.map (fun run => run.runInfo.run_uuid)
      aggregatedMetricEntities := aggregateValues metricsByRun aggregateFunction
      aggregatedParamEntities := aggregateValues paramsByRun aggregateFunction
      value := groupValue }
  RowMeta.group header ::
    (if expanded then
      runsInGroup.map (fun run =>
        RowMeta.run
          { index := 0
            level := 0
            runInfo := run.runInfo
            belongsToGroup := ! isRemainingRowsGroup
            isPinnable :=
              match recGet run.tags EXPERIMENT_PARENT_ID_TAG with
              | none => true
              | some v => v = ""
            metrics := run.metrics
            params := run.params
            tags := run.tags
            datasets := run.datasets
            rowUuid := groupId ++ "." ++ run.runInfo.run_uuid })
    else [])

/-- The value-extraction result of a tag/param `valueGetter` (`undefined` or a
string). -/
def ValueGetter : Type := SingleRunData → Option String

/-- JavaScript falsiness of a getter result: `undefined` or the empty
string. -/
def valueFalsy : Option String → Bool
  | none => true
  | some v => v = ""

/-- The partitioning loop of `createRunsGroupedByValue`: runs with a falsy
extracted value are appended to the ungrouped list, others to the record
bucket of their value.  Runs are tagged with their array position so that
distinct array elements with equal contents stay distinct, as JavaScript
object references do. -/
def vStep (valueGetter : ValueGetter)
    (acc : List (String × List (Nat × SingleRunData)) × List (Nat × SingleRunData))
    (ir : Nat × SingleRunData) :
    List (String × List (Nat × SingleRunData)) × List (Nat × SingleRunData) :=
  match valueGetter ir.2 with
  | none => (acc.1, acc.2 ++ [ir])
  | some v =>
    if v = "" then (acc.1, acc.2 ++ [ir])
    else
      match recGet acc.1 v with
      | none => (acc.1 ++ [(v, [ir])], acc.2)
      | some b => (recSet acc.1 v (b ++ [ir]), acc.2)

def groupRunsByValue (valueGetter : ValueGetter) (runData : List SingleRunData) :
    List (String × List (Nat × SingleRunData)) × List (Nat × SingleRunData) :=
  runData.enum.foldl (vStep valueGetter) ([], [])

/-- Lookup in the caller's `groupsExpanded` record with the concrete-group
default: absent (`isUndefined`) or `true` means expanded. -/
def expandedDefaultOpen (groupsExpanded : List (String × Bool)) (groupId : String) : Bool :=
  match recGet groupsExpanded groupId with
  | none => true
  | some b => b

/-- Lookup with the remaining-group default: only an explicit `true` expands. -/
def expandedDefaultClosed (groupsExpanded : List (String × Bool)) (groupId : String) : Bool :=
  recGet groupsExpanded groupId = some true

/-- Embedding of `createRunsGroupedByValue`: partition, then emit the groups
in the record's enumeration order (`keys(groups)`), then the remaining-runs
group when any run was left ungrouped. -/
def createRunsGroupedByValue (valueGetter : ValueGetter) (runData : List SingleRunData)
    (groupsExpanded : List (String × Bool))
    (aggregateFunction : RunGroupingAggregateFunction) (groupByMode : String)
    (groupByKey : String) : List RowMeta :=
  let parts := groupRunsByValue valueGetter runData
  let result := (jsOrderEntries parts.1).foldl
    (fun acc e =>
      let groupId := createGroupId groupByMode groupByKey (some e.1)
      acc ++ createGroupRenderMetadata groupId (expandedDefaultOpen groupsExpanded groupId)
        (e.2.map (fun ir => ir.2)) aggregateFunction (.str e.1) false)
    []
  if parts.2.isEmpty then result
  else
    let groupId := createGroupId groupByMode groupByKey none
    result ++ createGroupRenderMetadata groupId (expandedDefaultClosed groupsExpanded groupId)
      (parts.2.map (fun ir => ir.2)) aggregateFunction .remaining true

/-- A dataset's record key `${dataset.name}.${dataset.digest}`. -/
def datasetIdentifier (d : DatasetIdentity) : String := d.name ++ "." ++ d.digest

/-- Embedding of `getUniqueDatasets`: all dataset references of all runs paired
with their identifier (lodash `compact` is a no-op on these object values),
deduplicated by identifier keeping first occurrences (`uniqBy`). -/
def getUniqueDatasets (runData : List SingleRunData) : List (DatasetIdentity × String) :=
  (runData.foldr (fun r acc => r.datasets.map (fun d => (d, datasetIdentifier d)) ++ acc) []).foldl
    (fun acc x => if acc.any (fun y => y.2 = x.2) then acc else acc ++ [x]) []

/-- The fill loop of `createRunsGroupedByDataset`: for each run, push it into
the bucket of each of its dataset identifiers unless already present
(`!groups[id].runs.includes(run)`, modelled by the run's array position); runs
with no identifiers go to the ungrouped list. -/
def dsPush (ir : Nat × SingleRunData)
    (gs : List (String × (DatasetIdentity × List (Nat × SingleRunData)))) (ident : String) :
    List (String × (DatasetIdentity × List (Nat × SingleRunData))) :=
  match recGet gs ident with
  | none => gs
  | some db =>
    if db.2.any (fun jr => jr.1 = ir.1) then gs
    else recSet gs ident (db.1, db.2 ++ [ir])

def dsStep
    (acc : List (String × (DatasetIdentity × List (Nat × SingleRunData))) ×
      List (Nat × SingleRunData)) (ir : Nat × SingleRunData) :
    List (String × (DatasetIdentity × List (Nat × SingleRunData))) ×
      List (Nat × SingleRunData) :=
  let idents := ir.2.datasets.map datasetIdentifier
  let gs := idents.foldl (dsPush ir) acc.1
  if idents.isEmpty then (gs, acc.2 ++ [ir]) else (gs, acc.2)

def groupRunsByDataset (runData : List SingleRunData) :
    List (String × (DatasetIdentity × List (Nat × SingleRunData))) ×
      List (Nat × SingleRunData) :=
  let groups0 := (getUniqueDatasets runData).map (fun x => (x.2, (x.1, ([] : List (Nat × SingleRunData)))))
  runData.enum.foldl dsStep (groups0, [])

/-- Embedding of `createRunsGroupedByDataset`: build the per-dataset buckets,
emit them in record enumeration order, then the remaining-runs group. -/
def createRunsGroupedByDataset (runData : List SingleRunData)
    (groupsExpanded : List (String × Bool))
    (aggregateFunction : RunGroupingAggregateFunction) (groupByKey : String) : List RowMeta :=
  let parts := groupRunsByDataset runData
  let result := (jsOrderEntries parts.1).foldl
    (fun acc e =>
      let groupId := createGroupId (RunGroupingMode.str .Dataset) groupByKey (some e.1)
      acc ++ createGroupRenderMetadata groupId (expandedDefaultOpen groupsExpanded groupId)
        (e.2.2.map (fun ir => ir.2)) aggregateFunction (.dataset e.2.1) false)
    []
  if parts.2.isEmpty then result
  else
    let groupId := createGroupId (RunGroupingMode.str .Dataset) groupByKey none
    result ++ createGroupRenderMetadata groupId (expandedDefaultClosed groupsExpanded groupId)
      (parts.2.map (fun ir => ir.2)) aggregateFunction .remaining true

/-- The tag-mode value getter: `({ tags }) => tags?.[groupByData]?.value`. -/
def tagValueGetter (groupByData : String) : ValueGetter :=
  fun run => recGet run.tags groupByData

/-- The param-mode value getter:
`({ params }) => params.find((p) => p.key === groupByData)?.value`. -/
def paramValueGetter (groupByData : String) : ValueGetter :=
  fun run => (run.params.find? (fun p => p.1 = groupByData)).map (fun p => p.2)

/-- The grouping configuration as it exists at runtime, where the mode is an
arbitrary string (the TypeScript enum is erased). -/
structure GroupByConfigRT where
  mode : String
  aggregateFunction : RunGroupingAggregateFunction
  groupByData : String
deriving DecidableEq

/-- Embedding of `getGroupedRowRenderMetadata`: dispatch on the grouping mode,
`null` (here `none`) when the mode is unknown so the caller renders the flat
run list. -/
def getGroupedRowRenderMetadata (groupsExpanded : List (String × Bool))
    (runData : List SingleRunData) (groupByConfig : GroupByConfigRT) :
    Option (List RowMeta) :=
  if groupByConfig.mode = RunGroupingMode.str .Tag ||
      groupByConfig.mode = RunGroupingMode.str .Param then
    let valueGetter :=
      if groupByConfig.mode = RunGroupingMode.str .Tag then
        tagValueGetter groupByConfig.groupByData
      else paramValueGetter groupByConfig.groupByData
    some (createRunsGroupedByValue valueGetter runData groupsExpanded
      groupByConfig.aggregateFunction groupByConfig.mode groupByConfig.groupByData)
  else if groupByConfig.mode = RunGroupingMode.str .Dataset then
    some (createRunsGroupedByDataset runData groupsExpanded
      groupByConfig.aggregateFunction groupByConfig.groupByData)
  else none

/-- The `MetricEntity` of a metric history: key, value, step, timestamp. -/
structure MetricEntity where
  key : String
  value : JNum
  step : Int
  timestamp : JNum
deriving DecidableEq

/-- The `SyntheticMetricHistory` result type: one series per aggregate
function. -/
structure SyntheticMetricHistory where
  minSeries : List MetricEntity
  maxSeries : List MetricEntity
  avgSeries : List MetricEntity
deriving DecidableEq

/-- The internal `average` helper: sum divided by length (`NaN` on an empty
list, since `0 / 0` is `NaN`). -/
def averageJs (values : List JNum) : JNum := jsDiv (jsSum values) (JNum.int values.length)

/-- Lookup of `historyByStep[step]`: the `reduce` in the source groups entries
by step preserving encounter order, so the per-step list is the in-order
filter of the history (an absent step yields `undefined`, which `compact`
turns into `[]`, i.e. the empty filter result). -/
def historyAtStep (history : List MetricEntity) (step : Int) : List MetricEntity :=
  history.filter (fun e => e.step = step)

/-- Embedding of `createAggregatedMetricHistory`: per requested step, the
min/max/average of the compacted values at that step, each stamped with the
rounded average of the compacted timestamps at that step. -/
def createAggregatedMetricHistory (stepNumbers : List Int) (metricKey : String)
    (history : List MetricEntity) : SyntheticMetricHistory :=
  let avgTs := fun step =>
    jsRound (averageJs (jsCompact ((historyAtStep history step).map (fun e => e.timestamp))))
  let vals := fun step => jsCompact ((historyAtStep history step).map (fun e => e.value))
  { minSeries := stepNumbers.map (fun step =>
      ⟨metricKey, jsMathMin (vals step), step, avgTs step⟩)
    maxSeries := stepNumbers.map (fun step =>
      ⟨metricKey, jsMathMax (vals step), step, avgTs step⟩)
    avgSeries := stepNumbers.map (fun step =>
      ⟨metricKey, averageJs (vals step), step, avgTs step⟩) }

/-- First occurrence of each element, in encounter order. -/
def firstOccurK (ks : List String) : List String :=
  ks.foldl (fun a k => if k ∈ a then a else a ++ [k]) []

/-- Keys in order of first encounter while scanning the per-run lists in
sequence (the reference ordering named by the claims). -/
def firstSeenKeys (valuesByRun : List (List AggEntity)) : List String :=
  firstOccurK (valuesByRun.flatten.map (fun e => e.key))

/-- All coerced values of one key in a flat entity list, in order. -/
def collectE (l : List AggEntity) (k : String) : List JNum :=
  (l.filter (fun e => e.key = k)).map (fun e => toNumber e.value)

/-- The running value stored by the `Min`/`Max` reducer for a key: the first
coerced value combined with each later one (meaningless `NaN` placeholder for
a key that never occurs). -/
def mmValue (f2 : JNum → JNum → JNum) (l : List AggEntity) (k : String) : JNum :=
  match collectE l k with
  | [] => .nan
  | h :: t => t.foldl f2 h

/-- The nonempty extracted values, in run order, of the tag/param grouping
loop (the values that open buckets). -/
def truthyValuesOf (valueGetter : ValueGetter) (runData : List SingleRunData) : List String :=
  runData.filterMap (fun r =>
    match valueGetter r with
    | none => none
    | some v => if v = "" then none else some v)

/-- Whether a render record is a group header. -/
def isGroupRec : RowMeta → Bool
  | .group _ => true
  | .run _ => false

/-- Whether a JavaScript number is (positive or negative) zero. -/
def jsIsZero : JNum → Bool
  | .num q => MRat.isZero q
  | _ => false

/-- All coerced values recorded for a key, scanning the per-run lists in
sequence. -/
def collectedValues (valuesByRun : List (List AggEntity)) (k : String) : List JNum :=
  collectE valuesByRun.flatten k

/-- The reference aggregate of one key: numeric minimum, maximum, or sum over
count, over all the key's coerced values. -/
def aggValueOfKey (f : RunGroupingAggregateFunction) (valuesByRun : List (List AggEntity))
    (k : String) : JNum :=
  match f with
  | .Min => jsMathMin (collectedValues valuesByRun k)
  | .Max => jsMathMax (collectedValues valuesByRun k)
  | .Average => averageJs (collectedValues valuesByRun k)

/-! ## Lemmas and claim theorems -/

theorem string_mk_data (s : String) : String.mk s.data = s := rfl

theorem takeWhile_all_stop {p : Char → Bool} (m : List Char) {x : Char} (r : List Char)
    (hm : ∀ c ∈ m, p c = true) (hx : p x = false) :
    (m ++ x :: r).takeWhile p = m ∧ (m ++ x :: r).dropWhile p = x :: r := by
  induction m with
  | nil => simp [List.takeWhile_cons, List.dropWhile_cons, hx]
  | cons c m ih =>
    have hc : p c = true := hm c (by simp)
    have ih2 := ih (fun d hd => hm d (by simp [hd]))
    simp [List.takeWhile_cons, List.dropWhile_cons, hc, ih2.1, ih2.2]

theorem matchGroupKeyAt_spec (m a g : List Char) (hm1 : m ≠ [])
    (hm2 : ∀ c ∈ m, isLowerAZ c = true) (ha1 : a ≠ [])
    (ha2 : ∀ c ∈ a, isLowerAZ c = true) (hg1 : g ≠ [])
    (hg2 : ∀ c ∈ g, isLineTerm c = false) :
    matchGroupKeyAt (m ++ '.' :: (a ++ '.' :: g)) = some (m, a, g) := by
  have hdot : isLowerAZ '.' = false := by decide
  have h1 := takeWhile_all_stop m (a ++ '.' :: g) hm2 hdot
  have h2 := takeWhile_all_stop a g ha2 hdot
  have h3 : g.takeWhile (fun c => ! isLineTerm c) = g :=
    List.takeWhile_eq_self_iff.mpr (fun c hc => by simp [hg2 c hc])
  unfold matchGroupKeyAt
  simp only [h1.1, h1.2, h2.1, h2.2, h3]
  simp [hm1, ha1, hg1]

theorem findGroupKeyMatch_cons (c : Char) (r : List Char) :
    findGroupKeyMatch (c :: r) =
      match matchGroupKeyAt (c :: r) with
      | some m => some m
      | none => findGroupKeyMatch r := rfl

/-- C8 (confirmed): `aggregateValues` throws (reaches the `throw new Error`
statement, modelled by `Except.error`) iff the aggregate function value is
none of `min`, `max`, `average`. -/
theorem claim_C8_aggregate_throw (vals : List (List AggEntity)) (f : String) :
    (∃ e, aggregateValuesRT vals f = .error e) ↔
      (f ≠ "min" ∧ f ≠ "max" ∧ f ≠ "average") := by
  unfold aggregateValuesRT
  by_cases h1 : f = "min" <;> by_cases h2 : f = "max" <;> by_cases h3 : f = "average" <;>
    simp [h1, h2, h3]

/-- C9 (confirmed): `getGroupedRowRenderMetadata` returns `null` exactly when
the configured mode is none of the three grouping modes, so the caller can
fall back to the flat run list. -/
theorem claim_C9_unknown_mode_null (groupsExpanded : List (String × Bool))
    (runData : List SingleRunData) (cfg : GroupByConfigRT) :
    getGroupedRowRenderMetadata groupsExpanded runData cfg = none ↔
      (cfg.mode ≠ "tags" ∧ cfg.mode ≠ "params" ∧ cfg.mode ≠ "dataset") := by
  unfold getGroupedRowRenderMetadata
  by_cases h1 : cfg.mode = "tags" <;> by_cases h2 : cfg.mode = "params" <;>
    by_cases h3 : cfg.mode = "dataset" <;>
      simp [RunGroupingMode.str, h1, h2, h3]

theorem data_of_create (mode : RunGroupingMode) (agg : RunGroupingAggregateFunction)
    (data : String) :
    (createRunsGroupByKey (some mode) data agg).data =
      mode.str.data ++ '.' :: (agg.str.data ++ '.' :: data.data) := by
  cases mode <;> cases agg <;>
    simp [createRunsGroupByKey, RunGroupingMode.str, RunGroupingAggregateFunction.str,
      String.data_append]

theorem parse_of_shape (m a : List Char) (data key : String)
    (mode : RunGroupingMode) (agg : RunGroupingAggregateFunction)
    (hk : key ≠ "") (hd : key.data = m ++ '.' :: (a ++ '.' :: data.data))
    (hm1 : m ≠ []) (hm2 : ∀ c ∈ m, isLowerAZ c = true)
    (ha1 : a ≠ []) (ha2 : ∀ c ∈ a, isLowerAZ c = true)
    (hdata : data.data ≠ []) (h2 : ∀ c ∈ data.data, isLineTerm c = false)
    (hmode : modeOfString (String.mk m) = some mode)
    (hagg : aggOfString (String.mk a) = some agg) :
    parseRunsGroupByKey key = some ⟨mode, agg, data⟩ := by
  have hmatch := matchGroupKeyAt_spec m a data.data hm1 hm2 ha1 ha2 hdata h2
  obtain ⟨c, m2, rfl⟩ : ∃ c m2, m = c :: m2 := by
    cases m with
    | nil => exact absurd rfl hm1
    | cons c m2 => exact ⟨c, m2, rfl⟩
  unfold parseRunsGroupByKey
  rw [if_neg hk, hd]
  simp only [List.cons_append] at hmatch ⊢
  rw [findGroupKeyMatch_cons, hmatch]
  simp [hmode, hagg, string_mk_data]

/-- C1 (corrected): the codec round-trips every configuration whose
`groupByData` is nonempty and free of line terminators; the regex `(.+)`
requires at least one non-line-terminator character after the second dot, so
those are exactly the recoverable payloads (see the counterexample for the
empty string). -/
theorem claim_C1_roundtrip (mode : RunGroupingMode) (agg : RunGroupingAggregateFunction)
    (data : String) (h1 : data ≠ "") (h2 : ∀ c ∈ data.data, isLineTerm c = false) :
    parseRunsGroupByKey (createRunsGroupByKey (some mode) data agg) =
      some ⟨mode, agg, data⟩ := by
  have hdata : data.data ≠ [] := by
    intro h
    exact h1 (by cases data with | mk l => simp at h; simp [h])
  have hkeydata := data_of_create mode agg data
  have hkey : createRunsGroupByKey (some mode) data agg ≠ "" := by
    intro h
    rw [h] at hkeydata
    cases mode <;> simp [RunGroupingMode.str] at hkeydata
  cases mode <;> cases agg <;>
    exact parse_of_shape _ _ data _ _ _ hkey (by simpa using hkeydata)
      (by decide) (by decide) (by decide) (by decide) hdata h2 (by decide) (by decide)

/-- C1 counterexample: with an empty `groupByData` the claim's round trip
fails, because the serialized key ends in a dot and the regex `(.+)` cannot
match an empty remainder, so decoding yields `null`. -/
theorem claim_C1_counterexample :
    parseRunsGroupByKey (createRunsGroupByKey (some RunGroupingMode.Tag) ""
        RunGroupingAggregateFunction.Min) ≠
      some ⟨RunGroupingMode.Tag, RunGroupingAggregateFunction.Min, ""⟩ := by decide

/-- C1 witness: the round-trip theorem applied at a concrete configuration. -/
theorem claim_C1_roundtrip_witness :
    parseRunsGroupByKey (createRunsGroupByKey (some RunGroupingMode.Param) "lr.rate"
        RunGroupingAggregateFunction.Average) =
      some ⟨RunGroupingMode.Param, RunGroupingAggregateFunction.Average, "lr.rate"⟩ :=
  claim_C1_roundtrip RunGroupingMode.Param RunGroupingAggregateFunction.Average "lr.rate"
    (by decide) (by decide)

theorem jsTruthy_eq (v : JNum) : jsTruthy v = ! (jsIsZero v || jsIsNaN v) := by
  cases v <;> simp [jsTruthy, jsIsZero, jsIsNaN]

theorem jsCompact_eq_keep (l : List JNum) :
    jsCompact l = l.filter (fun v => ! (jsIsZero v || jsIsNaN v)) :=
  List.filter_congr (fun v _ => jsTruthy_eq v)

/-- C2 (corrected): at a requested step with no contributing entries the
average series carries `NaN` but the min series carries `Infinity` and the max
series `-Infinity` (`Math.min()` and `Math.max()` of no arguments), all with a
`NaN` timestamp; the concrete step-1 aggregates of the spec's example are
Min 1, Max 3, Average 2 with timestamp 150 in every variant. -/
theorem claim_C2_empty_step (stepNumbers : List Int) (metricKey : String)
    (history : List MetricEntity) (s : Int) (hs : s ∈ stepNumbers)
    (hempty : historyAtStep history s = []) :
    (∀ e ∈ (createAggregatedMetricHistory stepNumbers metricKey history).minSeries,
       e.step = s → e.value = JNum.inf ∧ e.timestamp = JNum.nan) ∧
    (∀ e ∈ (createAggregatedMetricHistory stepNumbers metricKey history).maxSeries,
       e.step = s → e.value = JNum.negInf ∧ e.timestamp = JNum.nan) ∧
    (∀ e ∈ (createAggregatedMetricHistory stepNumbers metricKey history).avgSeries,
       e.step = s → e.value = JNum.nan ∧ e.timestamp = JNum.nan) ∧
    (∃ e ∈ (createAggregatedMetricHistory stepNumbers metricKey history).minSeries,
       e.step = s) ∧
    createAggregatedMetricHistory [1, 2] "loss"
        [⟨"loss", JNum.int 1, 1, JNum.int 100⟩, ⟨"loss", JNum.int 3, 1, JNum.int 200⟩] =
      { minSeries := [⟨"loss", JNum.int 1, 1, JNum.int 150⟩, ⟨"loss", JNum.inf, 2, JNum.nan⟩]
        maxSeries := [⟨"loss", JNum.int 3, 1, JNum.int 150⟩, ⟨"loss", JNum.negInf, 2, JNum.nan⟩]
        avgSeries := [⟨"loss", JNum.int 2, 1, JNum.int 150⟩, ⟨"loss", JNum.nan, 2, JNum.nan⟩] } := by
  refine ⟨?_, ?_, ?_, ?_, by decide⟩
  · intro e he hestep
    simp only [createAggregatedMetricHistory, List.mem_map] at he
    obtain ⟨s2, hs2, rfl⟩ := he
    simp only at hestep
    subst hestep
    rw [hempty]
    exact ⟨rfl, rfl⟩
  · intro e he hestep
    simp only [createAggregatedMetricHistory, List.mem_map] at he
    obtain ⟨s2, hs2, rfl⟩ := he
    simp only at hestep
    subst hestep
    rw [hempty]
    exact ⟨rfl, rfl⟩
  · intro e he hestep
    simp only [createAggregatedMetricHistory, List.mem_map] at he
    obtain ⟨s2, hs2, rfl⟩ := he
    simp only at hestep
    subst hestep
    rw [hempty]
    exact ⟨rfl, rfl⟩
  · refine ⟨_, List.mem_map_of_mem _ hs, rfl⟩

/-- C2 counterexample: on the spec's own concrete input, the max series entry
at the empty step 2 carries `-Infinity`, not `NaN` as the claim states (and
the min series carries `Infinity`). -/
theorem claim_C2_counterexample :
    (createAggregatedMetricHistory [1, 2] "loss"
        [⟨"loss", JNum.int 1, 1, JNum.int 100⟩,
         ⟨"loss", JNum.int 3, 1, JNum.int 200⟩]).maxSeries.get? 1 =
      some ⟨"loss", JNum.negInf, 2, JNum.nan⟩ ∧ JNum.negInf ≠ JNum.nan := by decide

/-- C2 witness: the empty-step theorem applied at the spec's concrete input
and step 2. -/
theorem claim_C2_empty_step_witness :
    (∀ e ∈ (createAggregatedMetricHistory [1, 2] "loss"
         [⟨"loss", JNum.int 1, 1, JNum.int 100⟩,
          ⟨"loss", JNum.int 3, 1, JNum.int 200⟩]).minSeries,
       e.step = 2 → e.value = JNum.inf ∧ e.timestamp = JNum.nan) ∧
    (∃ e ∈ (createAggregatedMetricHistory [1, 2] "loss"
         [⟨"loss", JNum.int 1, 1, JNum.int 100⟩,
          ⟨"loss", JNum.int 3, 1, JNum.int 200⟩]).minSeries, e.step = 2) :=
  let h := claim_C2_empty_step [1, 2] "loss"
    [⟨"loss", JNum.int 1, 1, JNum.int 100⟩, ⟨"loss", JNum.int 3, 1, JNum.int 200⟩] 2
    (by decide) (by decide)
  ⟨h.1, h.2.2.2.1⟩

/-- C10 (confirmed): the aggregated history computes each per-step min, max
and average over the step's value list with zero-valued (and `NaN`) entries
filtered out, and each per-step average timestamp over the step's timestamp
list with zero (and `NaN`) timestamps filtered out — lodash `compact` removes
exactly the falsy numbers. -/
theorem claim_C10_zero_excluded (stepNumbers : List Int) (metricKey : String)
    (history : List MetricEntity) :
    createAggregatedMetricHistory stepNumbers metricKey history =
      { minSeries := stepNumbers.map (fun s =>
          ⟨metricKey,
           jsMathMin (((historyAtStep history s).map (fun e => e.value)).filter
             (fun v => ! (jsIsZero v || jsIsNaN v))), s,
           jsRound (averageJs (((historyAtStep history s).map (fun e => e.timestamp)).filter
             (fun v => ! (jsIsZero v || jsIsNaN v))))⟩)
        maxSeries := stepNumbers.map (fun s =>
          ⟨metricKey,
           jsMathMax (((historyAtStep history s).map (fun e => e.value)).filter
             (fun v => ! (jsIsZero v || jsIsNaN v))), s,
           jsRound (averageJs (((historyAtStep history s).map (fun e => e.timestamp)).filter
             (fun v => ! (jsIsZero v || jsIsNaN v))))⟩)
        avgSeries := stepNumbers.map (fun s =>
          ⟨metricKey,
           averageJs (((historyAtStep history s).map (fun e => e.value)).filter
             (fun v => ! (jsIsZero v || jsIsNaN v))), s,
           jsRound (averageJs (((historyAtStep history s).map (fun e => e.timestamp)).filter
             (fun v => ! (jsIsZero v || jsIsNaN v))))⟩) } := by
  simp [createAggregatedMetricHistory, jsCompact_eq_keep]

theorem mem_foldl_ins (ks : List String) (a : List String) (k : String) :
    (k ∈ ks.foldl (fun a k => if k ∈ a then a else a ++ [k]) a) ↔ k ∈ a ∨ k ∈ ks := by
  induction ks generalizing a with
  | nil => simp
  | cons x ks ih =>
    simp only [List.foldl_cons, ih]
    by_cases hx : x ∈ a <;> simp [hx] <;> by_cases hk : k = x <;> simp [hk, hx]

theorem mem_firstOccurK (ks : List String) (k : String) :
    k ∈ firstOccurK ks ↔ k ∈ ks := by
  simp [firstOccurK, mem_foldl_ins]

theorem firstOccurK_append_single (ks : List String) (k : String) :
    firstOccurK (ks ++ [k]) =
      if k ∈ firstOccurK ks then firstOccurK ks else firstOccurK ks ++ [k] := by
  simp [firstOccurK, List.foldl_append]

theorem recGet_cons_self {α : Type} (x : String) (v : α) (r : List (String × α)) :
    recGet ((x, v) :: r) x = some v := by
  simp [recGet, List.find?_cons_of_pos]

theorem recGet_cons_ne {α : Type} (x y : String) (v : α) (r : List (String × α))
    (h : x ≠ y) : recGet ((x, v) :: r) y = recGet r y := by
  have : ((x, v).1 = y) = False := by simp [h]
  simp [recGet, List.find?_cons, this]

theorem recGet_map_keys {α : Type} (ks : List String) (F : String → α) (k : String) :
    recGet (ks.map (fun x => (x, F x))) k = if k ∈ ks then some (F k) else none := by
  induction ks with
  | nil => simp [recGet]
  | cons x ks ih =>
    by_cases hx : x = k
    · subst hx
      simp [recGet_cons_self]
    · simp only [List.map_cons]
      rw [recGet_cons_ne x k (F x) _ hx, ih]
      simp [Ne.symm hx]

theorem recSet_map_keys {α : Type} (ks : List String) (F : String → α) (k : String) (v : α) :
    recSet (ks.map (fun x => (x, F x))) k v =
      ks.map (fun x => if x = k then (x, v) else (x, F x)) := by
  simp only [recSet, List.map_map]
  refine List.map_congr_left (fun x _ => ?_)
  by_cases hx : x = k <;> simp [hx]

theorem collectE_append_single (l : List AggEntity) (e : AggEntity) (k : String) :
    collectE (l ++ [e]) k =
      collectE l k ++ if e.key = k then [toNumber e.value] else [] := by
  by_cases h : e.key = k <;> simp [collectE, List.filter_append, h]

theorem collectE_nil_iff (l : List AggEntity) (k : String) :
    collectE l k = [] ↔ k ∉ l.map (fun e => e.key) := by
  simp only [collectE, List.map_eq_nil_iff, List.filter_eq_nil_iff, List.mem_map]
  constructor
  · rintro h ⟨e, he, rfl⟩
    exact h e he (by simp)
  · rintro h e he hk
    exact h ⟨e, he, by simpa using hk⟩

theorem mmValue_append_ne (f2 : JNum → JNum → JNum) (l : List AggEntity) (e : AggEntity)
    (k : String) (h : e.key ≠ k) : mmValue f2 (l ++ [e]) k = mmValue f2 l k := by
  simp [mmValue, collectE_append_single, h]

theorem mmValue_append_self_nil (f2 : JNum → JNum → JNum) (l : List AggEntity)
    (e : AggEntity) (h : collectE l e.key = []) :
    mmValue f2 (l ++ [e]) e.key = toNumber e.value := by
  simp [mmValue, collectE_append_single, h]

theorem mmValue_append_self (f2 : JNum → JNum → JNum) (l : List AggEntity) (e : AggEntity)
    (h : collectE l e.key ≠ []) :
    mmValue f2 (l ++ [e]) e.key = f2 (mmValue f2 l e.key) (toNumber e.value) := by
  obtain ⟨v, vs, hc⟩ := List.exists_cons_of_ne_nil h
  simp [mmValue, collectE_append_single, hc, List.foldl_append]

theorem mmStep_get_none (f2 : JNum → JNum → JNum) (acc : List (String × JNum))
    (m : AggEntity) (h : recGet acc m.key = none) :
    mmStep f2 acc m = acc ++ [(m.key, toNumber m.value)] := by
  unfold mmStep
  rw [h]

theorem mmStep_get_some (f2 : JNum → JNum → JNum) (acc : List (String × JNum))
    (m : AggEntity) (old : JNum) (h : recGet acc m.key = some old) :
    mmStep f2 acc m = recSet acc m.key (f2 old (toNumber m.value)) := by
  unfold mmStep
  rw [h]

theorem avStep_get_none (acc : List (String × List JNum)) (m : AggEntity)
    (h : recGet acc m.key = none) :
    avStep acc m = acc ++ [(m.key, [toNumber m.value])] := by
  unfold avStep
  rw [h]

theorem avStep_get_some (acc : List (String × List JNum)) (m : AggEntity)
    (vs : List JNum) (h : recGet acc m.key = some vs) :
    avStep acc m = recSet acc m.key (vs ++ [toNumber m.value]) := by
  unfold avStep
  rw [h]

theorem mm_char (f2 : JNum → JNum → JNum) (l : List AggEntity) :
    l.foldl (mmStep f2) [] =
      (firstOccurK (l.map (fun e => e.key))).map (fun k => (k, mmValue f2 l k)) := by
  induction l using List.reverseRecOn with
  | nil => simp [firstOccurK]
  | append_singleton l e ih =>
    rw [List.foldl_append, List.foldl_cons, List.foldl_nil, ih, List.map_append,
      List.map_cons, List.map_nil, firstOccurK_append_single]
    by_cases hmem : e.key ∈ l.map (fun e2 => e2.key)
    · have hmem2 := (mem_firstOccurK (l.map (fun e2 => e2.key)) e.key).mpr hmem
      have hget : recGet ((firstOccurK (l.map (fun e2 => e2.key))).map
          (fun k => (k, mmValue f2 l k))) e.key = some (mmValue f2 l e.key) := by
        rw [recGet_map_keys]
        exact if_pos hmem2
      rw [mmStep_get_some f2 _ _ _ hget, recSet_map_keys, if_pos hmem2]
      refine List.map_congr_left (fun k hk => ?_)
      by_cases hke : k = e.key
      · subst hke
        rw [if_pos rfl, mmValue_append_self f2 l e
          (fun hnil => ((collectE_nil_iff l e.key).mp hnil) hmem)]
      · rw [if_neg hke, mmValue_append_ne f2 l e k (fun h2 => hke h2.symm)]
    · have hmem2 : e.key ∉ firstOccurK (l.map (fun e2 => e2.key)) :=
        fun h2 => hmem ((mem_firstOccurK _ _).mp h2)
      have hget : recGet ((firstOccurK (l.map (fun e2 => e2.key))).map
          (fun k => (k, mmValue f2 l k))) e.key = none := by
        rw [recGet_map_keys]
        exact if_neg hmem2
      rw [mmStep_get_none f2 _ _ hget, if_neg hmem2, List.map_append, List.map_cons,
        List.map_nil]
      congr 1
      · refine List.map_congr_left (fun k hk => ?_)
        have hkl : k ∈ l.map (fun e2 => e2.key) := (mem_firstOccurK _ _).mp hk
        have hke : e.key ≠ k := fun h2 => hmem (by rw [h2]; exact hkl)
        rw [mmValue_append_ne f2 l e k hke]
      · rw [mmValue_append_self_nil f2 l e ((collectE_nil_iff l e.key).mpr hmem)]

theorem av_char (l : List AggEntity) :
    l.foldl avStep [] =
      (firstOccurK (l.map (fun e => e.key))).map (fun k => (k, collectE l k)) := by
  induction l using List.reverseRecOn with
  | nil => simp [firstOccurK]
  | append_singleton l e ih =>
    rw [List.foldl_append, List.foldl_cons, List.foldl_nil, ih, List.map_append,
      List.map_cons, List.map_nil, firstOccurK_append_single]
    by_cases hmem : e.key ∈ l.map (fun e2 => e2.key)
    · have hmem2 := (mem_firstOccurK (l.map (fun e2 => e2.key)) e.key).mpr hmem
      have hget : recGet ((firstOccurK (l.map (fun e2 => e2.key))).map
          (fun k => (k, collectE l k))) e.key = some (collectE l e.key) := by
        rw [recGet_map_keys]
        exact if_pos hmem2
      rw [avStep_get_some _ _ _ hget, recSet_map_keys, if_pos hmem2]
      refine List.map_congr_left (fun k hk => ?_)
      by_cases hke : k = e.key
      · subst hke
        rw [if_pos rfl, collectE_append_single, if_pos rfl]
      · rw [if_neg hke, collectE_append_single, if_neg (fun h2 => hke h2.symm),
          List.append_nil]
    · have hmem2 : e.key ∉ firstOccurK (l.map (fun e2 => e2.key)) :=
        fun h2 => hmem ((mem_firstOccurK _ _).mp h2)
      have hget : recGet ((firstOccurK (l.map (fun e2 => e2.key))).map
          (fun k => (k, collectE l k))) e.key = none := by
        rw [recGet_map_keys]
        exact if_neg hmem2
      rw [avStep_get_none _ _ hget, if_neg hmem2, List.map_append, List.map_cons,
        List.map_nil]
      congr 1
      · refine List.map_congr_left (fun k hk => ?_)
        have hkl : k ∈ l.map (fun e2 => e2.key) := (mem_firstOccurK _ _).mp hk
        have hke : e.key ≠ k := fun h2 => hmem (by rw [h2]; exact hkl)
        rw [collectE_append_single, if_neg hke, List.append_nil]
      · rw [collectE_append_single, if_pos rfl, (collectE_nil_iff l e.key).mpr hmem,
          List.nil_append]

theorem ordInsertE_map_keys {α : Type} (F : String → α) (k : String) (ks : List String) :
    ordInsertE (k, F k) (ks.map (fun x => (x, F x))) =
      (ordInsertK k ks).map (fun x => (x, F x)) := by
  induction ks with
  | nil => rfl
  | cons y ys ih =>
    simp only [List.map_cons, ordInsertE, ordInsertK]
    by_cases h : keyIndexVal k ≤ keyIndexVal y <;> simp [h, ih]

theorem sortByIndexE_map_keys {α : Type} (F : String → α) (ks : List String) :
    sortByIndexE (ks.map (fun x => (x, F x))) = (sortByIndexK ks).map (fun x => (x, F x)) := by
  induction ks with
  | nil => rfl
  | cons y ys ih =>
    simp only [List.map_cons, sortByIndexE, sortByIndexK, ih, ordInsertE_map_keys]

theorem jsOrderEntries_map_keys {α : Type} (F : String → α) (ks : List String) :
    jsOrderEntries (ks.map (fun k => (k, F k))) = (jsOrderKeys ks).map (fun k => (k, F k)) := by
  unfold jsOrderEntries jsOrderKeys
  rw [List.filter_map, List.filter_map, List.map_append, sortByIndexE_map_keys]
  congr 2

theorem mem_ordInsertK (x k : String) (ks : List String) :
    k ∈ ordInsertK x ks ↔ k = x ∨ k ∈ ks := by
  induction ks with
  | nil => simp [ordInsertK]
  | cons y ys ih =>
    simp only [ordInsertK]
    by_cases h : keyIndexVal x ≤ keyIndexVal y <;> simp [h, ih] <;> tauto

theorem mem_sortByIndexK (k : String) (ks : List String) :
    k ∈ sortByIndexK ks ↔ k ∈ ks := by
  induction ks with
  | nil => simp [sortByIndexK]
  | cons y ys ih => simp [sortByIndexK, mem_ordInsertK, ih]

theorem mem_of_mem_jsOrderKeys (k : String) (ks : List String) (h : k ∈ jsOrderKeys ks) :
    k ∈ ks := by
  unfold jsOrderKeys at h
  rcases List.mem_append.mp h with h2 | h2
  · exact List.mem_of_mem_filter ((mem_sortByIndexK _ _).mp h2)
  · exact List.mem_of_mem_filter h2

theorem map_mk_filter_snd (M : List String) (F : String → JNum) (p : JNum → Bool) :
    (((M.map (fun k => (k, F k))).filter (fun e => p e.2)).map
        (fun e => (⟨e.1, e.2⟩ : AggRes))) =
      (M.filter (fun k => p (F k))).map (fun k => (⟨k, F k⟩ : AggRes)) := by
  induction M with
  | nil => rfl
  | cons x xs ih =>
    simp only [List.map_cons, List.filter_cons]
    by_cases h : p (F x) <;> simp [h, ih]

theorem aggregateMinMax_char (f2 : JNum → JNum → JNum) (L : List (List AggEntity)) :
    aggregateMinMax f2 L =
      ((jsOrderKeys (firstOccurK (L.flatten.map (fun e => e.key)))).filter
          (fun k => ! jsIsNaN (mmValue f2 L.flatten k))).map
        (fun k => (⟨k, mmValue f2 L.flatten k⟩ : AggRes)) := by
  unfold aggregateMinMax
  rw [show (L.foldl (fun acc l => l.foldl (mmStep f2) acc) []) = L.flatten.foldl (mmStep f2) []
      from (List.foldl_flatten (mmStep f2) [] L).symm ▸ rfl]
  rw [mm_char]
  dsimp only
  rw [jsOrderEntries_map_keys]
  exact map_mk_filter_snd (jsOrderKeys (firstOccurK (L.flatten.map (fun e => e.key))))
    (fun k => mmValue f2 L.flatten k) (fun v => ! jsIsNaN v)

theorem aggregateAverage_char (L : List (List AggEntity)) :
    aggregateAverage L =
      ((jsOrderKeys (firstOccurK (L.flatten.map (fun e => e.key)))).filter
          (fun k => ! jsIsNaN (averageJs (collectE L.flatten k)))).map
        (fun k => (⟨k, averageJs (collectE L.flatten k)⟩ : AggRes)) := by
  unfold aggregateAverage
  rw [show (L.foldl (fun acc l => l.foldl avStep acc) []) = L.flatten.foldl avStep []
      from (List.foldl_flatten avStep [] L).symm ▸ rfl]
  rw [av_char]
  dsimp only
  rw [jsOrderEntries_map_keys, List.map_map]
  rw [show ((fun e => ((e.1 : String), jsDiv (jsSum e.2) (JNum.int e.2.length))) ∘
        (fun k => (k, collectE L.flatten k))) =
      (fun k => (k, averageJs (collectE L.flatten k))) from rfl]
  exact map_mk_filter_snd (jsOrderKeys (firstOccurK (L.flatten.map (fun e => e.key))))
    (fun k => averageJs (collectE L.flatten k)) (fun v => ! jsIsNaN v)

theorem jsMin2_inf_left (v : JNum) : jsMin2 .inf v = v := by cases v <;> rfl

theorem jsMax2_negInf_left (v : JNum) : jsMax2 .negInf v = v := by cases v <;> rfl

theorem mmValue_eq_mathMin (l : List AggEntity) (k : String) (h : collectE l k ≠ []) :
    mmValue jsMin2 l k = jsMathMin (collectE l k) := by
  obtain ⟨v, vs, hc⟩ := List.exists_cons_of_ne_nil h
  unfold mmValue jsMathMin
  rw [hc]
  simp only [List.foldl_cons]
  rw [jsMin2_inf_left]

theorem mmValue_eq_mathMax (l : List AggEntity) (k : String) (h : collectE l k ≠ []) :
    mmValue jsMax2 l k = jsMathMax (collectE l k) := by
  obtain ⟨v, vs, hc⟩ := List.exists_cons_of_ne_nil h
  unfold mmValue jsMathMax
  rw [hc]
  simp only [List.foldl_cons]
  rw [jsMax2_negInf_left]

theorem collectE_ne_nil_of_mem_first (L : List (List AggEntity)) (k : String)
    (h : k ∈ firstOccurK (L.flatten.map (fun e => e.key))) : collectE L.flatten k ≠ [] := by
  intro hnil
  exact (collectE_nil_iff L.flatten k).mp hnil ((mem_firstOccurK _ _).mp h)

/-- C3 (corrected): the keys of the `aggregateValues` output are the distinct
input keys with non-`NaN` aggregates, enumerated in JavaScript own-property
order — canonical array-index keys first in ascending numeric order, then the
remaining keys in first-encounter (insertion) order.  Pure insertion order as
claimed fails when a key is an array-index string (see the counterexample). -/
theorem claim_C3_key_order (valuesByRun : List (List AggEntity))
    (f : RunGroupingAggregateFunction) :
    (aggregateValues valuesByRun f).map (fun r => r.key) =
      (jsOrderKeys (firstSeenKeys valuesByRun)).filter
        (fun k => ! jsIsNaN (aggValueOfKey f valuesByRun k)) := by
  cases f with
  | Min =>
    rw [show aggregateValues valuesByRun .Min = aggregateMinMax jsMin2 valuesByRun from rfl,
      aggregateMinMax_char, List.map_map]
    rw [show ((fun r => AggRes.key r) ∘ fun k => (⟨k, mmValue jsMin2 valuesByRun.flatten k⟩ :
        AggRes)) = (fun k => k) from rfl, List.map_id_fun']
    refine List.filter_congr (fun k hk => ?_)
    have hne := collectE_ne_nil_of_mem_first valuesByRun k (mem_of_mem_jsOrderKeys _ _ hk)
    rw [mmValue_eq_mathMin _ _ hne]
    rfl
  | Max =>
    rw [show aggregateValues valuesByRun .Max = aggregateMinMax jsMax2 valuesByRun from rfl,
      aggregateMinMax_char, List.map_map]
    rw [show ((fun r => AggRes.key r) ∘ fun k => (⟨k, mmValue jsMax2 valuesByRun.flatten k⟩ :
        AggRes)) = (fun k => k) from rfl, List.map_id_fun']
    refine List.filter_congr (fun k hk => ?_)
    have hne := collectE_ne_nil_of_mem_first valuesByRun k (mem_of_mem_jsOrderKeys _ _ hk)
    rw [mmValue_eq_mathMax _ _ hne]
    rfl
  | Average =>
    rw [show aggregateValues valuesByRun .Average = aggregateAverage valuesByRun from rfl,
      aggregateAverage_char, List.map_map]
    rw [show ((fun r => AggRes.key r) ∘ fun k =>
        (⟨k, averageJs (collectE valuesByRun.flatten k)⟩ : AggRes)) = (fun k => k) from rfl,
      List.map_id_fun']
    rfl

/-- C3 counterexample: with keys `"b"` then `"0"` the output enumerates
`"0"` first (array-index keys precede), not the insertion order `"b", "0"`
the claim requires. -/
theorem claim_C3_counterexample :
    (aggregateValues [[⟨"b", .num (JNum.int 1)⟩, ⟨"0", .num (JNum.int 2)⟩]]
        RunGroupingAggregateFunction.Min).map (fun r => r.key) ≠
      firstSeenKeys [[⟨"b", .num (JNum.int 1)⟩, ⟨"0", .num (JNum.int 2)⟩]] ∧
    (aggregateValues [[⟨"b", .num (JNum.int 1)⟩, ⟨"0", .num (JNum.int 2)⟩]]
        RunGroupingAggregateFunction.Min).map (fun r => r.key) = ["0", "b"] ∧
    firstSeenKeys [[⟨"b", .num (JNum.int 1)⟩, ⟨"0", .num (JNum.int 2)⟩]] = ["b", "0"] := by
  refine ⟨?_, by decide, by decide⟩
  decide

theorem mem_aggregateMinMax (f2 : JNum → JNum → JNum) (L : List (List AggEntity))
    (k : String) (v : JNum) (h : AggRes.mk k v ∈ aggregateMinMax f2 L) :
    k ∈ firstOccurK (L.flatten.map (fun e => e.key)) ∧ v = mmValue f2 L.flatten k ∧
      jsIsNaN v = false := by
  rw [aggregateMinMax_char] at h
  obtain ⟨k2, hk2, heq⟩ := List.mem_map.mp h
  obtain ⟨hmem, hpred⟩ := List.mem_filter.mp hk2
  obtain ⟨hkk, hvv⟩ := AggRes.mk.injEq .. ▸ heq
  subst hkk
  refine ⟨mem_of_mem_jsOrderKeys _ _ hmem, hvv.symm, ?_⟩
  rw [← hvv]
  simpa using hpred

theorem mem_aggregateAverage (L : List (List AggEntity)) (k : String) (v : JNum)
    (h : AggRes.mk k v ∈ aggregateAverage L) :
    k ∈ firstOccurK (L.flatten.map (fun e => e.key)) ∧
      v = averageJs (collectE L.flatten k) ∧ jsIsNaN v = false := by
  rw [aggregateAverage_char] at h
  obtain ⟨k2, hk2, heq⟩ := List.mem_map.mp h
  obtain ⟨hmem, hpred⟩ := List.mem_filter.mp hk2
  obtain ⟨hkk, hvv⟩ := AggRes.mk.injEq .. ▸ heq
  subst hkk
  refine ⟨mem_of_mem_jsOrderKeys _ _ hmem, hvv.symm, ?_⟩
  rw [← hvv]
  simpa using hpred

/-- C6 (confirmed): every emitted aggregate value is the numeric minimum,
maximum, or sum-over-count of all coerced same-key values across the per-run
lists; keys whose aggregate is `NaN` are absent; and the spec's concrete
inputs with values 2 and 4 yield 3 for Average, 4 for Max, 2 for Min. -/
theorem claim_C6_aggregate_values :
    (∀ (L : List (List AggEntity)) (f : RunGroupingAggregateFunction) (k : String) (v : JNum),
       AggRes.mk k v ∈ aggregateValues L f → v = aggValueOfKey f L k) ∧
    (∀ (L : List (List AggEntity)) (f : RunGroupingAggregateFunction) (k : String),
       jsIsNaN (aggValueOfKey f L k) = true → ∀ v, AggRes.mk k v ∉ aggregateValues L f) ∧
    aggregateValues [[⟨"a", .num (JNum.int 2)⟩], [⟨"a", .num (JNum.int 4)⟩]]
        RunGroupingAggregateFunction.Average = [⟨"a", JNum.int 3⟩] ∧
    aggregateValues [[⟨"a", .num (JNum.int 2)⟩], [⟨"a", .num (JNum.int 4)⟩]]
        RunGroupingAggregateFunction.Max = [⟨"a", JNum.int 4⟩] ∧
    aggregateValues [[⟨"a", .num (JNum.int 2)⟩], [⟨"a", .num (JNum.int 4)⟩]]
        RunGroupingAggregateFunction.Min = [⟨"a", JNum.int 2⟩] := by
  have hval : ∀ (L : List (List AggEntity)) (f : RunGroupingAggregateFunction)
      (k : String) (v : JNum),
      AggRes.mk k v ∈ aggregateValues L f →
        v = aggValueOfKey f L k ∧ jsIsNaN v = false := by
    intro L f k v h
    cases f with
    | Min =>
      obtain ⟨hmem, hv, hnan⟩ := mem_aggregateMinMax jsMin2 L k v h
      refine ⟨?_, hnan⟩
      rw [hv, mmValue_eq_mathMin _ _ (collectE_ne_nil_of_mem_first L k hmem)]
      rfl
    | Max =>
      obtain ⟨hmem, hv, hnan⟩ := mem_aggregateMinMax jsMax2 L k v h
      refine ⟨?_, hnan⟩
      rw [hv, mmValue_eq_mathMax _ _ (collectE_ne_nil_of_mem_first L k hmem)]
      rfl
    | Average =>
      obtain ⟨hmem, hv, hnan⟩ := mem_aggregateAverage L k v h
      exact ⟨hv, hnan⟩
  refine ⟨fun L f k v h => (hval L f k v h).1, ?_, by decide, by decide, by decide⟩
  intro L f k hnan v hmem
  obtain ⟨hv, hnf⟩ := hval L f k v hmem
  rw [hv] at hnf
  rw [hnan] at hnf
  exact Bool.true_eq_false.mp hnf

/-- C6 witness: the value theorem applied at the spec's concrete Average
input, discharging the membership hypothesis concretely. -/
theorem claim_C6_aggregate_values_witness :
    (AggRes.mk "a" (JNum.int 3) ∈
      aggregateValues [[⟨"a", .num (JNum.int 2)⟩], [⟨"a", .num (JNum.int 4)⟩]]
        RunGroupingAggregateFunction.Average) ∧
    JNum.int 3 = aggValueOfKey RunGroupingAggregateFunction.Average
      [[⟨"a", .num (JNum.int 2)⟩], [⟨"a", .num (JNum.int 4)⟩]] "a" :=
  ⟨by decide, claim_C6_aggregate_values.1 _ _ _ _ (by decide)⟩

theorem mem_truthyValuesOf_ne_empty (g : ValueGetter) (rd : List SingleRunData) (v : String)
    (h : v ∈ truthyValuesOf g rd) : v ≠ "" := by
  obtain ⟨r, _, hr⟩ := List.mem_filterMap.mp h
  cases hgr : g r with
  | none => rw [hgr] at hr; simp at hr
  | some w =>
    rw [hgr] at hr
    by_cases hw : w = "" <;> simp [hw] at hr
    rw [← hr]
    exact hw

theorem value_mem_truthyValuesOf (g : ValueGetter) (rd : List SingleRunData)
    (r : SingleRunData) (v : String) (hr : r ∈ rd) (hg : g r = some v) (hv : v ≠ "") :
    v ∈ truthyValuesOf g rd := by
  refine List.mem_filterMap.mpr ⟨r, hr, ?_⟩
  rw [hg]
  simp [hv]

theorem nodup_foldl_ins (ks : List String) (a : List String) (ha : a.Nodup) :
    (ks.foldl (fun a k => if k ∈ a then a else a ++ [k]) a).Nodup := by
  induction ks generalizing a with
  | nil => exact ha
  | cons x ks ih =>
    simp only [List.foldl_cons]
    by_cases hx : x ∈ a
    · rw [if_pos hx]
      exact ih a ha
    · rw [if_neg hx]
      refine ih _ ?_
      simp [List.nodup_append, ha, hx]

theorem nodup_firstOccurK (ks : List String) : (firstOccurK ks).Nodup :=
  nodup_foldl_ins ks [] List.nodup_nil

theorem enum_append_single (rd : List SingleRunData) (r : SingleRunData) :
    (rd ++ [r]).enum = rd.enum ++ [(rd.length, r)] := by
  rw [List.enum_append]
  rfl

theorem groupRunsByValue_append (g : ValueGetter) (rd : List SingleRunData)
    (r : SingleRunData) :
    groupRunsByValue g (rd ++ [r]) = vStep g (groupRunsByValue g rd) (rd.length, r) := by
  unfold groupRunsByValue
  rw [enum_append_single, List.foldl_append]
  rfl

theorem truthyValuesOf_append (g : ValueGetter) (rd : List SingleRunData)
    (r : SingleRunData) :
    truthyValuesOf g (rd ++ [r]) = truthyValuesOf g rd ++ truthyValuesOf g [r] := by
  unfold truthyValuesOf
  rw [List.filterMap_append]

theorem vStep_falsy (g : ValueGetter)
    (acc : List (String × List (Nat × SingleRunData)) × List (Nat × SingleRunData))
    (ir : Nat × SingleRunData) (h : valueFalsy (g ir.2) = true) :
    vStep g acc ir = (acc.1, acc.2 ++ [ir]) := by
  unfold vStep
  cases hg : g ir.2 with
  | none => rfl
  | some v =>
    unfold valueFalsy at h
    rw [hg] at h
    simp only [decide_eq_true_eq] at h
    subst h
    simp

theorem vStep_truthy_mem (g : ValueGetter)
    (acc : List (String × List (Nat × SingleRunData)) × List (Nat × SingleRunData))
    (ir : Nat × SingleRunData) (v : String) (hg : g ir.2 = some v) (hv : v ≠ "")
    (b : List (Nat × SingleRunData)) (hb : recGet acc.1 v = some b) :
    vStep g acc ir = (recSet acc.1 v (b ++ [ir]), acc.2) := by
  unfold vStep
  rw [hg]
  dsimp only
  rw [if_neg hv, hb]

theorem vStep_truthy_new (g : ValueGetter)
    (acc : List (String × List (Nat × SingleRunData)) × List (Nat × SingleRunData))
    (ir : Nat × SingleRunData) (v : String) (hg : g ir.2 = some v) (hv : v ≠ "")
    (hb : recGet acc.1 v = none) :
    vStep g acc ir = (acc.1 ++ [(v, [ir])], acc.2) := by
  unfold vStep
  rw [hg]
  dsimp only
  rw [if_neg hv, hb]

theorem groupRunsByValue_char (g : ValueGetter) (rd : List SingleRunData) :
    groupRunsByValue g rd =
      ((firstOccurK (truthyValuesOf g rd)).map
        (fun v => (v, rd.enum.filter (fun x => g x.2 = some v))),
       rd.enum.filter (fun x => valueFalsy (g x.2))) := by
  induction rd using List.reverseRecOn with
  | nil => rfl
  | append_singleton rd r ih =>
    rw [groupRunsByValue_append, ih, truthyValuesOf_append, enum_append_single]
    by_cases hfal : valueFalsy (g r) = true
    · rw [vStep_falsy g _ (rd.length, r) hfal]
      have htr : truthyValuesOf g [r] = [] := by
        cases hg : g r with
        | none => simp [truthyValuesOf, hg]
        | some v =>
          unfold valueFalsy at hfal
          rw [hg] at hfal
          simp only [decide_eq_true_eq] at hfal
          simp [truthyValuesOf, hg, hfal]
      rw [htr, List.append_nil]
      refine Prod.ext ?_ ?_
      · refine (List.map_congr_left (fun v hv => ?_)).symm
        rw [List.filter_append]
        have hvne : v ≠ "" := mem_truthyValuesOf_ne_empty g rd v ((mem_firstOccurK _ _).mp hv)
        have hnil : List.filter (fun x => decide (g x.2 = some v)) [(rd.length, r)] = [] := by
          unfold valueFalsy at hfal
          cases hg : g r with
          | none => simp [hg]
          | some w =>
            rw [hg] at hfal
            simp only [decide_eq_true_eq] at hfal
            subst hfal
            simp [hg]
            exact fun h => hvne h.symm
        rw [hnil, List.append_nil]
      · rw [List.filter_append]
        have hone : List.filter (fun x => valueFalsy (g x.2)) [(rd.length, r)] =
            [(rd.length, r)] := by simp [hfal]
        rw [hone]
    · have hne : valueFalsy (g r) = false := by
        cases h2 : valueFalsy (g r)
        · rfl
        · exact absurd h2 hfal
      obtain ⟨v0, hg, hv0⟩ : ∃ v0, g r = some v0 ∧ v0 ≠ "" := by
        unfold valueFalsy at hne
        cases hg : g r with
        | none => rw [hg] at hne; simp at hne
        | some v =>
          rw [hg] at hne
          simp only [decide_eq_false_iff_not] at hne
          exact ⟨v, rfl, hne⟩
      have htr : truthyValuesOf g [r] = [v0] := by simp [truthyValuesOf, hg, hv0]
      rw [htr, firstOccurK_append_single]
      have hung : List.filter (fun x => valueFalsy (g x.2)) (rd.enum ++ [(rd.length, r)]) =
          List.filter (fun x => valueFalsy (g x.2)) rd.enum := by
        rw [List.filter_append]
        have : List.filter (fun x => valueFalsy (g x.2)) [(rd.length, r)] = [] := by
          simp [hne]
        rw [this, List.append_nil]
      by_cases hmem : v0 ∈ firstOccurK (truthyValuesOf g rd)
      · rw [if_pos hmem]
        rw [vStep_truthy_mem g _ (rd.length, r) v0 hg hv0
          (rd.enum.filter (fun x => g x.2 = some v0))
          (by rw [recGet_map_keys]; exact if_pos hmem)]
        refine Prod.ext ?_ hung.symm
        rw [recSet_map_keys]
        refine (List.map_congr_left (fun v hv => ?_)).symm
        rw [List.filter_append]
        by_cases hveq : v = v0
        · subst hveq
          have : List.filter (fun x => decide (g x.2 = some v)) [(rd.length, r)] =
              [(rd.length, r)] := by simp [hg]
          rw [this, if_pos rfl]
        · have : List.filter (fun x => decide (g x.2 = some v)) [(rd.length, r)] = [] := by
            simp [hg]
            exact fun h => hveq h.symm
          rw [this, List.append_nil, if_neg hveq]
      · rw [if_neg hmem]
        rw [vStep_truthy_new g _ (rd.length, r) v0 hg hv0
          (by rw [recGet_map_keys]; exact if_neg hmem)]
        rw [List.map_append, List.map_cons, List.map_nil]
        have hpast : List.filter (fun x => decide (g x.2 = some v0)) rd.enum = [] := by
          refine List.filter_eq_nil_iff.mpr (fun x hx => ?_)
          simp only [decide_eq_true_eq]
          intro hgx
          exact hmem ((mem_firstOccurK _ _).mpr
            (value_mem_truthyValuesOf g rd x.2 v0
              (List.get?_mem (List.mem_enum_iff_get?.mp hx)) hgx hv0))
        have hnew : List.filter (fun x => decide (g x.2 = some v0))
            (rd.enum ++ [(rd.length, r)]) = [(rd.length, r)] := by
          rw [List.filter_append, hpast, List.nil_append]
          simp [hg]
        have hmap : (firstOccurK (truthyValuesOf g rd)).map
            (fun v => (v, (rd.enum ++ [(rd.length, r)]).filter
              (fun x => g x.2 = some v))) =
            (firstOccurK (truthyValuesOf g rd)).map
            (fun v => (v, rd.enum.filter (fun x => g x.2 = some v))) := by
          refine List.map_congr_left (fun v hv => ?_)
          rw [List.filter_append]
          have hvne : v ≠ v0 := fun h => hmem (h ▸ hv)
          have hnil : List.filter (fun x => decide (g x.2 = some v)) [(rd.length, r)] = [] := by
            simp [hg]
            exact fun h => hvne h.symm
          rw [hnil, List.append_nil]
        rw [hung, hnew, hmap]

theorem count_map_fst_filter_zero (P : List (Nat × SingleRunData))
    (q : Nat × SingleRunData → Bool) (i : Nat) (hni : i ∉ P.map Prod.fst) :
    ((P.filter q).map Prod.fst).count i = 0 := by
  rw [List.count_eq_zero]
  intro hmem
  obtain ⟨x, hx, hfst⟩ := List.mem_map.mp hmem
  exact hni (List.mem_map.mpr ⟨x, List.mem_of_mem_filter hx, hfst⟩)

theorem count_map_fst_filter (P : List (Nat × SingleRunData))
    (q : Nat × SingleRunData → Bool) (i : Nat) (r : SingleRunData)
    (hnd : (P.map Prod.fst).Nodup) (hmem : (i, r) ∈ P) :
    ((P.filter q).map Prod.fst).count i = if q (i, r) then 1 else 0 := by
  induction P with
  | nil => cases hmem
  | cons x P ih =>
    have hnd2 : (P.map Prod.fst).Nodup := (List.nodup_cons.mp hnd).2
    have hx1 : x.1 ∉ P.map Prod.fst := (List.nodup_cons.mp hnd).1
    cases List.mem_cons.mp hmem with
    | inl heq =>
      subst heq
      have hni : (i : Nat) ∉ P.map Prod.fst := hx1
      rw [List.filter_cons]
      by_cases hq : q (i, r)
      · rw [if_pos hq, List.map_cons, List.count_cons, if_pos (by simp),
          count_map_fst_filter_zero P q i hni, if_pos hq]
      · rw [if_neg hq, count_map_fst_filter_zero P q i hni, if_neg hq]
    | inr hmem2 =>
      have hine : x.1 ≠ i := by
        intro h
        exact hx1 (h ▸ List.mem_map.mpr ⟨(i, r), hmem2, rfl⟩)
      rw [List.filter_cons]
      by_cases hq : q x
      · rw [if_pos hq, List.map_cons, List.count_cons, if_neg (by simp [hine]),
          ih hnd2 hmem2]
        simp
      · rw [if_neg hq, ih hnd2 hmem2]

theorem enum_fst_nodup (rd : List SingleRunData) : (rd.enum.map Prod.fst).Nodup := by
  rw [List.enum_map_fst]
  exact List.nodup_range _

theorem sum_indicator_one (ks : List String) (v0 : String) (f : String → Nat)
    (hnd : ks.Nodup) (hv : v0 ∈ ks) (hf : ∀ v ∈ ks, f v = if v = v0 then 1 else 0) :
    (ks.map f).sum = 1 := by
  induction ks with
  | nil => cases hv
  | cons x ks ih =>
    have hnd2 := (List.nodup_cons.mp hnd).2
    have hx := (List.nodup_cons.mp hnd).1
    rw [List.map_cons, List.sum_cons]
    cases List.mem_cons.mp hv with
    | inl heq =>
      subst heq
      rw [hf v0 (by simp), if_pos rfl]
      have hz : (ks.map f).sum = 0 := by
        refine List.sum_eq_zero (fun n hn => ?_)
        obtain ⟨v, hvk, rfl⟩ := List.mem_map.mp hn
        rw [hf v (by simp [hvk]), if_neg (fun h => hx (by rw [← h]; exact hvk))]
      rw [hz]
    | inr hv2 =>
      rw [hf x (by simp), if_neg (fun h => hx (by rw [h]; exact hv2)),
        ih hnd2 hv2 (fun v hvk => hf v (by simp [hvk]))]

/-- C5 (confirmed): grouping by tag or parameter places every run in exactly
one bucket — the bucket keyed by its extracted nonempty value, or the
remaining bucket when the value is absent or empty — so the buckets partition
the run list (runs are identified by their array position). -/
theorem claim_C5_partition (key : String) (g : ValueGetter)
    (hgetter : g = tagValueGetter key ∨ g = paramValueGetter key)
    (runData : List SingleRunData) (i : Nat) (run : SingleRunData)
    (hi : runData.get? i = some run) :
    (((groupRunsByValue g runData).1.map
        (fun e => (e.2.map Prod.fst).count i)).sum +
      ((groupRunsByValue g runData).2.map Prod.fst).count i = 1) ∧
    (((groupRunsByValue g runData).2.map Prod.fst).count i =
      if valueFalsy (g run) then 1 else 0) ∧
    (∀ v b, (v, b) ∈ (groupRunsByValue g runData).1 →
      (b.map Prod.fst).count i = if g run = some v ∧ v ≠ "" then 1 else 0) := by
  clear hgetter
  have hmem : (i, run) ∈ runData.enum := List.mem_enum_iff_get?.mpr hi
  have hnd := enum_fst_nodup runData
  rw [groupRunsByValue_char]
  have hung : ((runData.enum.filter (fun x => valueFalsy (g x.2))).map Prod.fst).count i =
      if valueFalsy (g run) then 1 else 0 :=
    count_map_fst_filter runData.enum _ i run hnd hmem
  have hbucket : ∀ v : String,
      (((runData.enum.filter (fun x => g x.2 = some v)).map Prod.fst).count i) =
        if g run = some v then 1 else 0 := by
    intro v
    have := count_map_fst_filter runData.enum (fun x => g x.2 = some v) i run hnd hmem
    simpa using this
  refine ⟨?_, hung, ?_⟩
  · rw [List.map_map]
    cases hfal : valueFalsy (g run) with
    | true =>
      have hz : ((firstOccurK (truthyValuesOf g runData)).map
          ((fun e => ((e.2.map Prod.fst).count i)) ∘
            (fun v => (v, runData.enum.filter (fun x => g x.2 = some v))))).sum = 0 := by
        refine List.sum_eq_zero (fun n hn => ?_)
        obtain ⟨v, hvk, rfl⟩ := List.mem_map.mp hn
        have hvne := mem_truthyValuesOf_ne_empty g runData v ((mem_firstOccurK _ _).mp hvk)
        simp only [Function.comp]
        rw [hbucket v, if_neg ?_]
        unfold valueFalsy at hfal
        cases hgr : g run with
        | none => simp
        | some w =>
          rw [hgr] at hfal
          simp only [decide_eq_true_eq] at hfal
          subst hfal
          simp
          exact fun h => hvne h.symm
      rw [hz, hung, if_pos hfal]
    | false =>
      obtain ⟨v0, hg0, hv0⟩ : ∃ v0, g run = some v0 ∧ v0 ≠ "" := by
        unfold valueFalsy at hfal
        cases hgr : g run with
        | none => rw [hgr] at hfal; simp at hfal
        | some w =>
          rw [hgr] at hfal
          simp only [decide_eq_false_iff_not] at hfal
          exact ⟨w, rfl, hfal⟩
      have hv0mem : v0 ∈ firstOccurK (truthyValuesOf g runData) :=
        (mem_firstOccurK _ _).mpr
          (value_mem_truthyValuesOf g runData run v0 (List.get?_mem hi) hg0 hv0)
      have hone : ((firstOccurK (truthyValuesOf g runData)).map
          ((fun e => ((e.2.map Prod.fst).count i)) ∘
            (fun v => (v, runData.enum.filter (fun x => g x.2 = some v))))).sum = 1 := by
        refine sum_indicator_one _ v0 _ (nodup_firstOccurK _) hv0mem (fun v hvk => ?_)
        simp only [Function.comp]
        rw [hbucket v, hg0]
        by_cases hveq : v = v0
        · subst hveq
          rw [if_pos rfl, if_pos rfl]
        · rw [if_neg (fun h => hveq (Option.some.injEq .. ▸ h).symm), if_neg hveq]
      rw [hone, hung, if_neg (by simp [hfal])]
  · intro v b hvb
    obtain ⟨v2, hvk, heq⟩ := List.mem_map.mp hvb
    obtain ⟨hv2, hb⟩ := Prod.mk.injEq .. ▸ heq
    subst hv2
    subst hb
    have hvne := mem_truthyValuesOf_ne_empty g runData v2 ((mem_firstOccurK _ _).mp hvk)
    rw [hbucket v2]
    by_cases hgv : g run = some v2
    · rw [if_pos hgv, if_pos ⟨hgv, hvne⟩]
    · rw [if_neg hgv, if_neg (fun h => hgv h.1)]

/-- C5 witness: the partition theorem applied at a one-run list with a
matching tag, discharging the hypotheses concretely. -/
theorem claim_C5_partition_witness :
    (((groupRunsByValue (tagValueGetter "t")
        [⟨⟨"r0"⟩, [], [], [("t", "x")], []⟩]).1.map
        (fun e => (e.2.map Prod.fst).count 0)).sum +
      ((groupRunsByValue (tagValueGetter "t")
        [⟨⟨"r0"⟩, [], [], [("t", "x")], []⟩]).2.map Prod.fst).count 0 = 1) ∧
    (((groupRunsByValue (tagValueGetter "t")
        [⟨⟨"r0"⟩, [], [], [("t", "x")], []⟩]).2.map Prod.fst).count 0 =
      if valueFalsy (tagValueGetter "t" ⟨⟨"r0"⟩, [], [], [("t", "x")], []⟩) then 1 else 0) ∧
    (∀ v b, (v, b) ∈ (groupRunsByValue (tagValueGetter "t")
        [⟨⟨"r0"⟩, [], [], [("t", "x")], []⟩]).1 →
      (b.map Prod.fst).count 0 =
        if tagValueGetter "t" ⟨⟨"r0"⟩, [], [], [("t", "x")], []⟩ = some v ∧ v ≠ ""
        then 1 else 0) :=
  claim_C5_partition "t" (tagValueGetter "t") (Or.inl rfl)
    [⟨⟨"r0"⟩, [], [], [("t", "x")], []⟩] 0 ⟨⟨"r0"⟩, [], [], [("t", "x")], []⟩ (by decide)

theorem nodup_assoc_unique {α : Type} (r : List (String × α))
    (hnd : (r.map Prod.fst).Nodup) (k : String) (v : α) (hv : (k, v) ∈ r)
    (e : String × α) (he : e ∈ r) (hk : e.1 = k) : e = (k, v) := by
  induction r with
  | nil => cases hv
  | cons x r ih =>
    have hx1 := (List.nodup_cons.mp hnd).1
    have hnd2 := (List.nodup_cons.mp hnd).2
    cases List.mem_cons.mp hv with
    | inl hveq =>
      cases List.mem_cons.mp he with
      | inl heeq => rw [heeq, ← hveq]
      | inr he2 =>
        exfalso
        apply hx1
        rw [← hveq]
        exact List.mem_map.mpr ⟨e, he2, hk⟩
    | inr hv2 =>
      cases List.mem_cons.mp he with
      | inl heeq =>
        exfalso
        apply hx1
        rw [← heeq, hk]
        exact List.mem_map.mpr ⟨(k, v), hv2, rfl⟩
      | inr he2 => exact ih hnd2 hv2 he2

theorem recGet_eq_some_mem {α : Type} (r : List (String × α)) (k : String) (v : α)
    (h : recGet r k = some v) : (k, v) ∈ r := by
  unfold recGet at h
  obtain ⟨e, hfind, hsnd⟩ := Option.map_eq_some'.mp h
  have hmem := List.mem_of_find?_eq_some hfind
  have hkey : e.1 = k := by simpa using List.find?_some hfind
  have : e = (k, v) := by
    cases e
    simp only at hkey hsnd
    rw [hkey, hsnd]
  rw [← this]
  exact hmem

theorem recGet_eq_none_iff {α : Type} (r : List (String × α)) (k : String) :
    recGet r k = none ↔ ∀ e ∈ r, e.1 ≠ k := by
  unfold recGet
  rw [Option.map_eq_none', List.find?_eq_none]
  simp

theorem dsPush_char (ir : Nat × SingleRunData)
    (gs : List (String × (DatasetIdentity × List (Nat × SingleRunData)))) (ident : String)
    (hnd : (gs.map Prod.fst).Nodup) :
    dsPush ir gs ident = gs.map (fun e =>
      if e.1 = ident ∧ (e.2.2.any (fun jr => jr.1 = ir.1)) = false
      then (e.1, (e.2.1, e.2.2 ++ [ir])) else e) := by
  unfold dsPush
  cases hget : recGet gs ident with
  | none =>
    have hno := (recGet_eq_none_iff gs ident).mp hget
    refine ((List.map_congr_left (fun e he => ?_)).trans (List.map_id _)).symm
    rw [if_neg (fun hc => hno e he hc.1)]
    rfl
  | some db =>
    have hdbmem : (ident, db) ∈ gs := recGet_eq_some_mem gs ident db hget
    change (if (db.2.any fun jr => jr.1 = ir.1) = true then gs
      else recSet gs ident (db.1, db.2 ++ [ir])) = _
    by_cases hany : (db.2.any (fun jr => jr.1 = ir.1)) = true
    · rw [if_pos hany]
      refine ((List.map_congr_left (fun e he => ?_)).trans (List.map_id _)).symm
      by_cases h1 : e.1 = ident
      · have heq : e = (ident, db) := nodup_assoc_unique gs hnd ident db hdbmem e he h1
        rw [if_neg ?_]
        · rfl
        · rintro ⟨_, hfalse⟩
          rw [heq] at hfalse
          simp only at hfalse
          rw [hany] at hfalse
          cases hfalse
      · rw [if_neg (fun hc => h1 hc.1)]
        rfl
    · have hany2 : (db.2.any (fun jr => jr.1 = ir.1)) = false := by
        cases h2 : (db.2.any (fun jr => jr.1 = ir.1))
        · rfl
        · exact absurd h2 hany
      rw [if_neg hany]
      unfold recSet
      refine List.map_congr_left (fun e he => ?_)
      by_cases h1 : e.1 = ident
      · have heq : e = (ident, db) := nodup_assoc_unique gs hnd ident db hdbmem e he h1
        rw [if_pos h1, if_pos ⟨h1, by rw [heq]; exact hany2⟩, heq]
      · rw [if_neg h1, if_neg (fun hc => h1 hc.1)]

theorem dsPushFold_char (ir : Nat × SingleRunData) (idents : List String) :
    ∀ (gs : List (String × (DatasetIdentity × List (Nat × SingleRunData)))),
      (gs.map Prod.fst).Nodup →
      idents.foldl (dsPush ir) gs = gs.map (fun e =>
        if e.1 ∈ idents ∧ (e.2.2.any (fun jr => jr.1 = ir.1)) = false
        then (e.1, (e.2.1, e.2.2 ++ [ir])) else e) := by
  induction idents with
  | nil =>
    intro gs _
    refine ((List.map_congr_left (fun e he => ?_)).trans (List.map_id _)).symm
    rw [if_neg (by rintro ⟨h, _⟩; exact List.not_mem_nil _ h)]
    rfl
  | cons ident rest ih =>
    intro gs hnd
    rw [List.foldl_cons, dsPush_char ir gs ident hnd]
    have hkeys : ((gs.map (fun e =>
        if e.1 = ident ∧ (e.2.2.any (fun jr => jr.1 = ir.1)) = false
        then (e.1, (e.2.1, e.2.2 ++ [ir])) else e)).map Prod.fst) = gs.map Prod.fst := by
      rw [List.map_map]
      refine List.map_congr_left (fun e he => ?_)
      simp only [Function.comp]
      by_cases hc : e.1 = ident ∧ (e.2.2.any (fun jr => jr.1 = ir.1)) = false
      · rw [if_pos hc]
      · rw [if_neg hc]
    rw [ih _ (by rw [hkeys]; exact hnd), List.map_map]
    refine List.map_congr_left (fun e he => ?_)
    simp only [Function.comp]
    by_cases h1 : e.1 = ident
    · by_cases h2 : (e.2.2.any (fun jr => jr.1 = ir.1)) = false
      · have hinner : e.1 = ident ∧ (e.2.2.any (fun jr => jr.1 = ir.1)) = false := ⟨h1, h2⟩
        rw [if_pos hinner]
        dsimp only
        have houter : ¬(e.1 ∈ rest ∧ (((e.2.2 ++ [ir]).any (fun jr => jr.1 = ir.1)) = false)) := by
          rintro ⟨_, hf⟩
          simp [List.any_append] at hf
        have hm : e.1 ∈ ident :: rest := by
          rw [h1]
          exact List.mem_cons_self ident rest
        rw [if_neg houter, if_pos ⟨hm, h2⟩]
      · have hinner : ¬(e.1 = ident ∧ (e.2.2.any (fun jr => jr.1 = ir.1)) = false) :=
          fun hc => h2 hc.2
        have houter : ¬(e.1 ∈ rest ∧ (e.2.2.any (fun jr => jr.1 = ir.1)) = false) :=
          fun hc => h2 hc.2
        have htarget : ¬(e.1 ∈ ident :: rest ∧ (e.2.2.any (fun jr => jr.1 = ir.1)) = false) :=
          fun hc => h2 hc.2
        rw [if_neg hinner, if_neg houter, if_neg htarget]
    · have hinner : ¬(e.1 = ident ∧ (e.2.2.any (fun jr => jr.1 = ir.1)) = false) :=
        fun hc => h1 hc.1
      rw [if_neg hinner]
      by_cases hc : e.1 ∈ rest ∧ (e.2.2.any (fun jr => jr.1 = ir.1)) = false
      · rw [if_pos hc, if_pos ⟨List.mem_cons_of_mem _ hc.1, hc.2⟩]
      · have htarget : ¬(e.1 ∈ ident :: rest ∧ (e.2.2.any (fun jr => jr.1 = ir.1)) = false) := by
          rintro ⟨hm, hf⟩
          rcases List.mem_cons.mp hm with h | h
          · exact h1 h
          · exact hc ⟨h, hf⟩
        rw [if_neg hc, if_neg htarget]

theorem isEmpty_map_identifier (ds : List DatasetIdentity) :
    (ds.map datasetIdentifier).isEmpty = ds.isEmpty := by
  cases ds <;> rfl

theorem dsStep_char
    (acc : List (String × (DatasetIdentity × List (Nat × SingleRunData))) ×
      List (Nat × SingleRunData)) (ir : Nat × SingleRunData)
    (hnd : (acc.1.map Prod.fst).Nodup)
    (hfresh : ∀ e ∈ acc.1, (e.2.2.any (fun jr => jr.1 = ir.1)) = false) :
    dsStep acc ir =
      (acc.1.map (fun e =>
        if e.1 ∈ ir.2.datasets.map datasetIdentifier
        then (e.1, (e.2.1, e.2.2 ++ [ir])) else e),
       if ir.2.datasets.isEmpty then acc.2 ++ [ir] else acc.2) := by
  unfold dsStep
  dsimp only
  rw [dsPushFold_char ir _ acc.1 hnd, isEmpty_map_identifier]
  have hmap : acc.1.map (fun e =>
      if e.1 ∈ ir.2.datasets.map datasetIdentifier ∧
        (e.2.2.any (fun jr => jr.1 = ir.1)) = false
      then (e.1, (e.2.1, e.2.2 ++ [ir])) else e) =
      acc.1.map (fun e =>
        if e.1 ∈ ir.2.datasets.map datasetIdentifier
        then (e.1, (e.2.1, e.2.2 ++ [ir])) else e) := by
    refine List.map_congr_left (fun e he => ?_)
    by_cases hm : e.1 ∈ ir.2.datasets.map datasetIdentifier
    · rw [if_pos ⟨hm, hfresh e he⟩, if_pos hm]
    · rw [if_neg (fun hc => hm hc.1), if_neg hm]
  rw [hmap]
  cases h : ir.2.datasets.isEmpty <;> simp

theorem dsFold_char (P : List (Nat × SingleRunData)) :
    ∀ (G : List (String × (DatasetIdentity × List (Nat × SingleRunData))))
      (u : List (Nat × SingleRunData)),
      (G.map Prod.fst).Nodup →
      (P.map Prod.fst).Nodup →
      (∀ x ∈ P, ∀ e ∈ G, (e.2.2.any (fun jr => jr.1 = x.1)) = false) →
      P.foldl dsStep (G, u) =
        (G.map (fun e => (e.1, (e.2.1,
           e.2.2 ++ P.filter (fun x => e.1 ∈ x.2.datasets.map datasetIdentifier)))),
         u ++ P.filter (fun x => x.2.datasets.isEmpty)) := by
  induction P with
  | nil =>
    intro G u _ _ _
    simp only [List.foldl_nil, List.filter_nil, List.append_nil]
    refine Prod.ext ?_ rfl
    refine ((List.map_congr_left (fun e he => ?_)).trans (List.map_id _)).symm
    rfl
  | cons x P ih =>
    intro G u hndG hndP hfresh
    rw [List.foldl_cons, dsStep_char (G, u) x hndG (fun e he => hfresh x (by simp) e he)]
    have hfixed : ∀ e ∈ G, ((fun e =>
        if e.1 ∈ x.2.datasets.map datasetIdentifier
        then (e.1, (e.2.1, e.2.2 ++ [x])) else e) e).1 = e.1 := by
      intro e he
      dsimp only
      by_cases hm : e.1 ∈ x.2.datasets.map datasetIdentifier
      · rw [if_pos hm]
      · rw [if_neg hm]
    have hkeyseq : ((G.map (fun e =>
        if e.1 ∈ x.2.datasets.map datasetIdentifier
        then (e.1, (e.2.1, e.2.2 ++ [x])) else e)).map Prod.fst) = G.map Prod.fst := by
      rw [List.map_map]
      exact List.map_congr_left hfixed
    have hndG2 : ((G.map (fun e =>
        if e.1 ∈ x.2.datasets.map datasetIdentifier
        then (e.1, (e.2.1, e.2.2 ++ [x])) else e)).map Prod.fst).Nodup := by
      rw [hkeyseq]
      exact hndG
    have hndP2 : (P.map Prod.fst).Nodup := (List.nodup_cons.mp (by
      rw [List.map_cons] at hndP; exact hndP)).2
    have hx1 : x.1 ∉ P.map Prod.fst := (List.nodup_cons.mp (by
      rw [List.map_cons] at hndP; exact hndP)).1
    have hfresh2 : ∀ y ∈ P, ∀ e2 ∈ (G.map (fun e =>
        if e.1 ∈ x.2.datasets.map datasetIdentifier
        then (e.1, (e.2.1, e.2.2 ++ [x])) else e)), (e2.2.2.any (fun jr => jr.1 = y.1)) = false := by
      intro y hy e2 he2
      obtain ⟨e, he, rfl⟩ := List.mem_map.mp he2
      have hold := hfresh y (by simp [hy]) e he
      have hxy : ¬ (x.1 = y.1) := fun h => hx1 (h ▸ List.mem_map.mpr ⟨y, hy, rfl⟩)
      by_cases hm : e.1 ∈ x.2.datasets.map datasetIdentifier
      · rw [if_pos hm]
        simp only [List.any_append, hold]
        simp [hxy]
      · rw [if_neg hm]
        exact hold
    rw [ih _ _ hndG2 hndP2 hfresh2, List.map_map]
    refine Prod.ext ?_ ?_
    · refine List.map_congr_left (fun e he => ?_)
      simp only [Function.comp]
      by_cases hm : e.1 ∈ x.2.datasets.map datasetIdentifier
      · simp only [if_pos hm]
        rw [List.filter_cons_of_pos (by simpa using hm), List.append_assoc]
        rfl
      · simp only [if_neg hm]
        rw [List.filter_cons_of_neg (by simpa using hm)]
    · dsimp only
      by_cases hie : x.2.datasets.isEmpty
      · rw [List.filter_cons_of_pos (by simpa using hie), if_pos hie, List.append_assoc]
        rfl
      · rw [List.filter_cons_of_neg (by simpa using hie), if_neg hie]

theorem nodup_snd_uniqFold (L : List (DatasetIdentity × String)) :
    ∀ (acc : List (DatasetIdentity × String)), ((acc.map Prod.snd).Nodup) →
      (((L.foldl (fun acc x => if acc.any (fun y => y.2 = x.2) then acc else acc ++ [x])
        acc).map Prod.snd).Nodup) := by
  induction L with
  | nil => intro acc h; exact h
  | cons x L ih =>
    intro acc hacc
    rw [List.foldl_cons]
    by_cases hany : (acc.any (fun y => y.2 = x.2)) = true
    · rw [if_pos hany]
      exact ih acc hacc
    · rw [if_neg hany]
      refine ih _ ?_
      rw [List.map_append]
      refine List.Nodup.append hacc (by simp) ?_
      intro s hs hs2
      simp only [List.map_cons, List.map_nil, List.mem_singleton] at hs2
      obtain ⟨y, hy, hysnd⟩ := List.mem_map.mp hs
      apply hany
      refine List.any_eq_true.mpr ⟨y, hy, ?_⟩
      simp [hysnd, hs2]

theorem mem_snd_uniqFold (L : List (DatasetIdentity × String)) :
    ∀ (acc : List (DatasetIdentity × String)) (s : String),
      ((∃ y ∈ L.foldl (fun acc x => if acc.any (fun y => y.2 = x.2) then acc
          else acc ++ [x]) acc, y.2 = s) ↔
        (∃ y ∈ acc, y.2 = s) ∨ (∃ y ∈ L, y.2 = s)) := by
  induction L with
  | nil =>
    intro acc s
    simp
  | cons x L ih =>
    intro acc s
    rw [List.foldl_cons]
    by_cases hany : (acc.any (fun y => y.2 = x.2)) = true
    · rw [if_pos hany]
      rw [ih acc s]
      constructor
      · rintro (h | h)
        · exact Or.inl h
        · exact Or.inr (by obtain ⟨y, hy, hs⟩ := h; exact ⟨y, by simp [hy], hs⟩)
      · rintro (h | h)
        · exact Or.inl h
        · obtain ⟨y, hy, hs⟩ := h
          rcases List.mem_cons.mp hy with hyx | hyL
          · obtain ⟨z, hz, hzs⟩ := List.any_eq_true.mp hany
            simp only [decide_eq_true_eq] at hzs
            exact Or.inl ⟨z, hz, by rw [hzs, ← hyx, hs]⟩
          · exact Or.inr ⟨y, hyL, hs⟩
    · rw [if_neg hany]
      rw [ih _ s]
      constructor
      · rintro (h | h)
        · obtain ⟨y, hy, hs⟩ := h
          rcases List.mem_append.mp hy with hyacc | hyx
          · exact Or.inl ⟨y, hyacc, hs⟩
          · simp only [List.mem_singleton] at hyx
            exact Or.inr ⟨x, by simp, by rw [← hyx, hs]⟩
        · exact Or.inr (by obtain ⟨y, hy, hs⟩ := h; exact ⟨y, by simp [hy], hs⟩)
      · rintro (h | h)
        · exact Or.inl (by obtain ⟨y, hy, hs⟩ := h; exact ⟨y, by simp [hy], hs⟩)
        · obtain ⟨y, hy, hs⟩ := h
          rcases List.mem_cons.mp hy with hyx | hyL
          · exact Or.inl ⟨x, by simp, by rw [← hyx, hs]⟩
          · exact Or.inr ⟨y, hyL, hs⟩

theorem allDatasetPairs_mem (rd : List SingleRunData) (r : SingleRunData)
    (d : DatasetIdentity) (hr : r ∈ rd) (hd : d ∈ r.datasets) :
    (d, datasetIdentifier d) ∈
      rd.foldr (fun r acc => r.datasets.map (fun d => (d, datasetIdentifier d)) ++ acc) [] := by
  induction rd with
  | nil => cases hr
  | cons x rd ih =>
    rw [List.foldr_cons]
    rcases List.mem_cons.mp hr with hrx | hrL
    · exact List.mem_append.mpr (Or.inl (List.mem_map.mpr ⟨d, by rw [← hrx]; exact hd, rfl⟩))
    · exact List.mem_append.mpr (Or.inr (ih hrL))

theorem getUniqueDatasets_snd_nodup (rd : List SingleRunData) :
    (((getUniqueDatasets rd).map Prod.snd).Nodup) := by
  unfold getUniqueDatasets
  exact nodup_snd_uniqFold _ [] List.nodup_nil

theorem mem_getUniqueDatasets_snd (rd : List SingleRunData) (r : SingleRunData)
    (d : DatasetIdentity) (hr : r ∈ rd) (hd : d ∈ r.datasets) :
    ∃ y ∈ getUniqueDatasets rd, y.2 = datasetIdentifier d := by
  unfold getUniqueDatasets
  rw [mem_snd_uniqFold _ [] (datasetIdentifier d)]
  exact Or.inr ⟨(d, datasetIdentifier d), allDatasetPairs_mem rd r d hr hd, rfl⟩

theorem groupRunsByDataset_char (rd : List SingleRunData) :
    groupRunsByDataset rd =
      ((getUniqueDatasets rd).map (fun y => (y.2, (y.1,
          rd.enum.filter (fun x => y.2 ∈ x.2.datasets.map datasetIdentifier)))),
       rd.enum.filter (fun x => x.2.datasets.isEmpty)) := by
  unfold groupRunsByDataset
  dsimp only
  have hkeys0 : (((getUniqueDatasets rd).map
      (fun x => (x.2, (x.1, ([] : List (Nat × SingleRunData)))))).map Prod.fst) =
      (getUniqueDatasets rd).map Prod.snd := by
    rw [List.map_map]
    exact List.map_congr_left (fun y hy => rfl)
  have hndG : (((getUniqueDatasets rd).map
      (fun x => (x.2, (x.1, ([] : List (Nat × SingleRunData)))))).map Prod.fst).Nodup := by
    rw [hkeys0]
    exact getUniqueDatasets_snd_nodup rd
  have hfresh : ∀ x ∈ rd.enum, ∀ e ∈ ((getUniqueDatasets rd).map
      (fun x => (x.2, (x.1, ([] : List (Nat × SingleRunData)))))),
      (e.2.2.any (fun jr => jr.1 = x.1)) = false := by
    intro x hx e he
    obtain ⟨y, hy, rfl⟩ := List.mem_map.mp he
    rfl
  rw [dsFold_char rd.enum _ [] hndG (enum_fst_nodup rd) hfresh, List.map_map,
    List.nil_append]
  refine Prod.ext ?_ rfl
  refine List.map_congr_left (fun y hy => ?_)
  simp only [Function.comp]
  rw [List.nil_append]

/-- C4 (confirmed): when grouping by dataset, a run appears exactly once in
the bucket of every dataset identity it references (even when referenced
twice), appears in no bucket of an identity it does not reference, and lands
in the remaining bucket exactly when it has no dataset references (runs are
identified by their array position). -/
theorem claim_C4_dataset_buckets (runData : List SingleRunData) (i : Nat)
    (run : SingleRunData) (hi : runData.get? i = some run) :
    (∀ d ∈ run.datasets,
       ∃ dd b, (datasetIdentifier d, (dd, b)) ∈ (groupRunsByDataset runData).1 ∧
         (b.map Prod.fst).count i = 1) ∧
    (∀ ident dd b, (ident, (dd, b)) ∈ (groupRunsByDataset runData).1 →
       ident ∉ run.datasets.map datasetIdentifier →
       (b.map Prod.fst).count i = 0) ∧
    (((groupRunsByDataset runData).2.map Prod.fst).count i =
      if run.datasets.isEmpty then 1 else 0) := by
  have hmem : (i, run) ∈ runData.enum := List.mem_enum_iff_get?.mpr hi
  have hnd := enum_fst_nodup runData
  rw [groupRunsByDataset_char]
  refine ⟨?_, ?_, ?_⟩
  · intro d hd
    obtain ⟨y, hy, hysnd⟩ := mem_getUniqueDatasets_snd runData run d (List.get?_mem hi) hd
    refine ⟨y.1, runData.enum.filter (fun x => y.2 ∈ x.2.datasets.map datasetIdentifier),
      ?_, ?_⟩
    · rw [← hysnd]
      exact List.mem_map.mpr ⟨y, hy, rfl⟩
    · have hcount := count_map_fst_filter runData.enum
        (fun x => decide (y.2 ∈ x.2.datasets.map datasetIdentifier)) i run hnd hmem
      rw [hcount, if_pos]
      simp only [decide_eq_true_eq]
      rw [hysnd]
      exact List.mem_map.mpr ⟨d, hd, rfl⟩
  · intro ident dd b hb hnotin
    obtain ⟨y, hy, heq⟩ := List.mem_map.mp hb
    rw [Prod.mk.injEq, Prod.mk.injEq] at heq
    obtain ⟨h1, _, h3⟩ := heq
    rw [← h3]
    have hcount := count_map_fst_filter runData.enum
      (fun x => decide (y.2 ∈ x.2.datasets.map datasetIdentifier)) i run hnd hmem
    rw [hcount, if_neg]
    simp only [decide_eq_true_eq]
    rw [h1]
    exact hnotin
  · have hcount := count_map_fst_filter runData.enum
      (fun x => x.2.datasets.isEmpty) i run hnd hmem
    rw [hcount]

/-- C4 witness: the dataset-bucket theorem applied at a two-run list, one run
referencing the same dataset twice and one with no references. -/
theorem claim_C4_dataset_buckets_witness :
    (∀ d ∈ ([⟨"ds", "dg"⟩, ⟨"ds", "dg"⟩] : List DatasetIdentity),
       ∃ dd b, (datasetIdentifier d, (dd, b)) ∈
           (groupRunsByDataset
             [⟨⟨"r0"⟩, [], [], [], [⟨"ds", "dg"⟩, ⟨"ds", "dg"⟩]⟩,
              ⟨⟨"r1"⟩, [], [], [], []⟩]).1 ∧
         (b.map Prod.fst).count 0 = 1) ∧
    (((groupRunsByDataset
        [⟨⟨"r0"⟩, [], [], [], [⟨"ds", "dg"⟩, ⟨"ds", "dg"⟩]⟩,
         ⟨⟨"r1"⟩, [], [], [], []⟩]).2.map Prod.fst).count 0 =
      if ([⟨"ds", "dg"⟩, ⟨"ds", "dg"⟩] : List DatasetIdentity).isEmpty then 1 else 0) :=
  let h := claim_C4_dataset_buckets
    [⟨⟨"r0"⟩, [], [], [], [⟨"ds", "dg"⟩, ⟨"ds", "dg"⟩]⟩, ⟨⟨"r1"⟩, [], [], [], []⟩] 0
    ⟨⟨"r0"⟩, [], [], [], [⟨"ds", "dg"⟩, ⟨"ds", "dg"⟩]⟩ (by decide)
  ⟨h.1, h.2.2⟩

theorem createGroupRenderMetadata_length (gid : String) (e : Bool)
    (runs : List SingleRunData) (agg : RunGroupingAggregateFunction) (val : GroupValue)
    (rem : Bool) :
    (createGroupRenderMetadata gid e runs agg val rem).length =
      1 + (if e then runs.length else 0) := by
  unfold createGroupRenderMetadata
  cases e <;> simp [Nat.add_comm]

theorem createGroupRenderMetadata_head (gid : String) (e : Bool)
    (runs : List SingleRunData) (agg : RunGroupingAggregateFunction) (val : GroupValue)
    (rem : Bool) :
    (createGroupRenderMetadata gid e runs agg val rem).head? =
      some (RowMeta.group
        { groupId := gid
          expanderOpen := e
          runUuids := runs.map (fun run => run.runInfo.run_uuid)
          aggregatedMetricEntities := aggregateValues (runs.map metricsAgg) agg
          aggregatedParamEntities := aggregateValues (runs.map paramsAgg) agg
          value := val }) := rfl

theorem createGroupRenderMetadata_one_header (gid : String) (e : Bool)
    (runs : List SingleRunData) (agg : RunGroupingAggregateFunction) (val : GroupValue)
    (rem : Bool) :
    (createGroupRenderMetadata gid e runs agg val rem).countP isGroupRec = 1 := by
  unfold createGroupRenderMetadata
  rw [List.countP_cons]
  have htail : ∀ (l : List SingleRunData) (f : SingleRunData → RowRenderMetadata),
      (l.map (fun run => RowMeta.run (f run))).countP isGroupRec = 0 := by
    intro l f
    refine List.countP_eq_zero.mpr (fun m hm => ?_)
    obtain ⟨run, _, rfl⟩ := List.mem_map.mp hm
    simp [isGroupRec]
  cases e
  · simp [isGroupRec]
  · simp [isGroupRec, htail]

theorem emit_fold_length {α : Type} (L : List α) (F : α → List RowMeta) :
    ∀ acc : List RowMeta,
      (L.foldl (fun acc e => acc ++ F e) acc).length =
        acc.length + (L.map (fun e => (F e).length)).sum := by
  induction L with
  | nil => intro acc; simp
  | cons x L ih =>
    intro acc
    rw [List.foldl_cons, ih, List.length_append, List.map_cons, List.sum_cons]
    omega

theorem sum_map_ordInsertE {α : Type} (f : String × α → Nat) (x : String × α)
    (l : List (String × α)) :
    ((ordInsertE x l).map f).sum = f x + (l.map f).sum := by
  induction l with
  | nil => simp [ordInsertE]
  | cons y ys ih =>
    unfold ordInsertE
    by_cases h : keyIndexVal x.1 ≤ keyIndexVal y.1
    · rw [if_pos h]
      simp
    · rw [if_neg h]
      simp only [List.map_cons, List.sum_cons, ih]
      omega

theorem sum_map_sortByIndexE {α : Type} (f : String × α → Nat) (l : List (String × α)) :
    ((sortByIndexE l).map f).sum = (l.map f).sum := by
  induction l with
  | nil => rfl
  | cons x xs ih =>
    unfold sortByIndexE
    rw [sum_map_ordInsertE, ih, List.map_cons, List.sum_cons]

theorem sum_map_filter_split {α : Type} (p : α → Bool) (f : α → Nat) (l : List α) :
    ((l.filter p).map f).sum + ((l.filter (fun a => ! p a)).map f).sum = (l.map f).sum := by
  induction l with
  | nil => rfl
  | cons x xs ih =>
    cases hp : p x
    · rw [List.filter_cons_of_neg (by simp [hp]), List.filter_cons_of_pos (by simp [hp])]
      simp only [List.map_cons, List.sum_cons]
      omega
    · rw [List.filter_cons_of_pos (by simp [hp]), List.filter_cons_of_neg (by simp [hp])]
      simp only [List.map_cons, List.sum_cons]
      omega

theorem sum_map_jsOrderEntries {α : Type} (f : String × α → Nat) (r : List (String × α)) :
    ((jsOrderEntries r).map f).sum = (r.map f).sum := by
  unfold jsOrderEntries
  rw [List.map_append, List.sum_append, sum_map_sortByIndexE]
  exact sum_map_filter_split _ f r

theorem expandedDefaultOpen_nil (gid : String) : expandedDefaultOpen [] gid = true := rfl

theorem expandedDefaultClosed_nil (gid : String) : expandedDefaultClosed [] gid = false := by
  unfold expandedDefaultClosed recGet
  simp

theorem expandedDefaultOpen_single_true (x gid : String) :
    expandedDefaultOpen [(x, true)] gid = true := by
  unfold expandedDefaultOpen
  by_cases h : x = gid
  · subst h
    rw [recGet_cons_self]
  · rw [recGet_cons_ne x gid true [] h]
    rfl

theorem expandedDefaultClosed_single_self (x : String) :
    expandedDefaultClosed [(x, true)] x = true := by
  unfold expandedDefaultClosed
  rw [recGet_cons_self]
  simp

theorem createRunsGroupedByValue_length (g : ValueGetter) (runData : List SingleRunData)
    (M : List (String × Bool)) (agg : RunGroupingAggregateFunction) (mode key : String)
    (hopen : ∀ gid, expandedDefaultOpen M gid = true) :
    (createRunsGroupedByValue g runData M agg mode key).length =
      (((groupRunsByValue g runData).1.map (fun e => 1 + e.2.length)).sum +
        (if (groupRunsByValue g runData).2.isEmpty then 0
         else 1 + (if expandedDefaultClosed M (createGroupId mode key none) = true
                   then (groupRunsByValue g runData).2.length else 0))) := by
  unfold createRunsGroupedByValue
  dsimp only
  have hfold :
      ((jsOrderEntries (groupRunsByValue g runData).1).foldl
        (fun acc e => acc ++ createGroupRenderMetadata (createGroupId mode key (some e.1))
          (expandedDefaultOpen M (createGroupId mode key (some e.1)))
          (e.2.map (fun ir => ir.2)) agg (.str e.1) false) []).length =
        (((groupRunsByValue g runData).1.map (fun e => 1 + e.2.length)).sum) := by
    rw [emit_fold_length _ _ []]
    rw [List.map_congr_left (fun e he => by
      rw [createGroupRenderMetadata_length, hopen, if_pos rfl, List.length_map] :
        ∀ e ∈ jsOrderEntries (groupRunsByValue g runData).1, _ = (fun e => 1 + e.2.length) e)]
    rw [sum_map_jsOrderEntries]
    simp
  by_cases hie : ((groupRunsByValue g runData).2.isEmpty) = true
  · rw [if_pos hie, if_pos hie, hfold]
    omega
  · rw [if_neg hie, if_neg hie, List.length_append, hfold,
      createGroupRenderMetadata_length, List.length_map]

/-- C7 (confirmed): each grouping pass emits per group exactly one header row
first (carrying the aggregated metric and param entities whether or not the
group is expanded) followed by one member row per run iff the effective
expanded flag is set; with an empty expand-state map every concrete group is
expanded and the remaining group collapsed, and marking the remaining group's
id `true` expands it too. -/
theorem claim_C7_group_records :
    (∀ (gid : String) (e : Bool) (runs : List SingleRunData)
        (agg : RunGroupingAggregateFunction) (val : GroupValue) (rem : Bool),
       (createGroupRenderMetadata gid e runs agg val rem).length =
         1 + (if e then runs.length else 0) ∧
       (createGroupRenderMetadata gid e runs agg val rem).countP isGroupRec = 1 ∧
       (createGroupRenderMetadata gid e runs agg val rem).head? =
         some (RowMeta.group
           { groupId := gid
             expanderOpen := e
             runUuids := runs.map (fun run => run.runInfo.run_uuid)
             aggregatedMetricEntities := aggregateValues (runs.map metricsAgg) agg
             aggregatedParamEntities := aggregateValues (runs.map paramsAgg) agg
             value := val })) ∧
    (∀ (g : ValueGetter) (runData : List SingleRunData)
        (agg : RunGroupingAggregateFunction) (mode key : String),
       (createRunsGroupedByValue g runData [] agg mode key).length =
         (((groupRunsByValue g runData).1.map (fun e => 1 + e.2.length)).sum +
           (if (groupRunsByValue g runData).2.isEmpty then 0 else 1))) ∧
    (∀ (g : ValueGetter) (runData : List SingleRunData)
        (agg : RunGroupingAggregateFunction) (mode key : String),
       (createRunsGroupedByValue g runData [(createGroupId mode key none, true)]
           agg mode key).length =
         (((groupRunsByValue g runData).1.map (fun e => 1 + e.2.length)).sum +
           (if (groupRunsByValue g runData).2.isEmpty then 0
            else 1 + (groupRunsByValue g runData).2.length))) := by
  refine ⟨fun gid e runs agg val rem =>
    ⟨createGroupRenderMetadata_length gid e runs agg val rem,
     createGroupRenderMetadata_one_header gid e runs agg val rem,
     createGroupRenderMetadata_head gid e runs agg val rem⟩, ?_, ?_⟩
  · intro g runData agg mode key
    rw [createRunsGroupedByValue_length g runData [] agg mode key expandedDefaultOpen_nil]
    rw [expandedDefaultClosed_nil]
    by_cases hie : ((groupRunsByValue g runData).2.isEmpty) = true
    · rw [if_pos hie, if_pos hie]
    · rw [if_neg hie, if_neg hie]
      simp
  · intro g runData agg mode key
    rw [createRunsGroupedByValue_length g runData _ agg mode key
      (fun gid => expandedDefaultOpen_single_true _ gid)]
    rw [expandedDefaultClosed_single_self]
    by_cases hie : ((groupRunsByValue g runData).2.isEmpty) = true
    · rw [if_pos hie, if_pos hie]
    · rw [if_neg hie, if_neg hie]
      simp

theorem aggregateValuesRT_ok (vals : List (List AggEntity))
    (f : RunGroupingAggregateFunction) :
    aggregateValuesRT vals f.str = .ok (aggregateValues vals f) := by
  cases f <;> rfl
